import Mathlib

/-!
Verification development for the bmpfs repository (src/bmpfs.c), a FUSE
filesystem whose backing store is a single BMP image.  The definitions below
are a shallow embedding of the C source: C integers become Nat (with explicit
wrap where the C can overflow), the in-memory bitmap and inode table become
lists, the metadata region of the image file becomes a byte list, and the
block-payload area of the image becomes a total function from byte index to
byte value.  Operations that in C report errors through negative errno values
return Except values here.
-/

namespace Bmpfs

/-- UINT32_MAX, the sentinel returned by find_free_blocks when no run exists
and stored in first_block when a file owns no blocks. -/
def UINT32_MAX : Nat := 4294967295

/-- 2^64, the modulus of size_t / uint64_t arithmetic in the source. -/
def U64 : Nat := 18446744073709551616

/-- POSIX S_IFREG file-type bit (octal 0100000). -/
def S_IFREG : Nat := 32768

/-- POSIX S_IFDIR file-type bit (octal 040000). -/
def S_IFDIR : Nat := 16384

/-- Owner-read permission bit (octal 0400). -/
def S_IRUSR : Nat := 256

/-- Owner-write permission bit (octal 0200). -/
def S_IWUSR : Nat := 128

/-- Linux O_WRONLY open flag (1). -/
def O_WRONLY : Nat := 1

/-- Linux O_RDONLY open flag (0): note that it has no bits set. -/
def O_RDONLY : Nat := 0

/-- The byte value of the path separator character. -/
def SLASH : Nat := 47

/-- The errno values the source returns (as negative ints in C). -/
inductive Errno where
  | enoent | eexist | eisdir | enotdir | eacces | einval
  | enametoolong | enospc | enomem | efbig | eio
deriving DecidableEq, Repr

/-- FileMetadata: the 309-byte packed on-image inode record of bmpfs.c.
filename holds the full 256-byte NUL-padded char array (one Nat per byte). -/
structure FileMetadata where
  filename : List Nat
  size : Nat
  created : Nat
  modified : Nat
  accessed : Nat
  first_block : Nat
  num_blocks : Nat
  mode : Nat
  uid : Nat
  gid : Nat
  is_dir : Nat
deriving DecidableEq, Repr, Inhabited

/-- The volume state (bmp_fs_state in the source).  data_size, block_size and
max_files are the derived geometry fields; bitmap and files are the in-memory
metadata buffers; diskMeta models the byte contents of the image file's
metadata region (the metadata_size bytes at dataOffset); data models the
block-payload byte area of the image file (byte index relative to the first
payload byte at dataOffset + metadata_size). -/
structure BmpFsState where
  data_size : Nat
  block_size : Nat
  max_files : Nat
  bitmap : List Nat
  files : List FileMetadata
  diskMeta : List Nat
  data : Nat → Nat

instance : Inhabited BmpFsState :=
  ⟨{ data_size := 0, block_size := 0, max_files := 0, bitmap := [], files := [],
     diskMeta := [], data := fun _ => 0 }⟩

/-- total number of blocks: data_size / block_size (integer division). -/
def totalBlocks (st : BmpFsState) : Nat := st.data_size / st.block_size

/-- calculate_metadata_size: bitmap (one byte per block) plus the inode table
(max_files records of 309 bytes each). -/
def calculate_metadata_size (st : BmpFsState) : Nat :=
  totalBlocks st + st.max_files * 309

/-- Little-endian encoding of a natural into w bytes (the byte image of a
packed uintN field on a little-endian machine). -/
def toLE : Nat → Nat → List Nat
  | 0, _ => []
  | w + 1, n => n % 256 :: toLE w (n / 256)

/-- Little-endian decoding of a byte list. -/
def fromLE : List Nat → Nat
  | [] => 0
  | b :: bs => b + 256 * fromLE bs

/-- The 309-byte image of one FileMetadata record, in the packed layout of the
C struct: 256 name bytes, four u64 fields, five u32 fields, one u8 field. -/
def encodeInode (m : FileMetadata) : List Nat :=
  m.filename ++ toLE 8 m.size ++ toLE 8 m.created ++ toLE 8 m.modified ++
  toLE 8 m.accessed ++ toLE 4 m.first_block ++ toLE 4 m.num_blocks ++
  toLE 4 m.mode ++ toLE 4 m.uid ++ toLE 4 m.gid ++ [m.is_dir]

/-- Decode one 309-byte record at the packed field offsets. -/
def decodeInode (b : List Nat) : FileMetadata :=
  { filename := b.take 256
    size := fromLE ((b.drop 256).take 8)
    created := fromLE ((b.drop 264).take 8)
    modified := fromLE ((b.drop 272).take 8)
    accessed := fromLE ((b.drop 280).take 8)
    first_block := fromLE ((b.drop 288).take 4)
    num_blocks := fromLE ((b.drop 292).take 4)
    mode := fromLE ((b.drop 296).take 4)
    uid := fromLE ((b.drop 300).take 4)
    gid := fromLE ((b.drop 304).take 4)
    is_dir := b.getD 308 0 }

/-- Byte image of the whole inode array (the memcpy of max_files packed
records in write_metadata). -/
def encodeInodes : List FileMetadata → List Nat
  | [] => []
  | m :: rest => encodeInode m ++ encodeInodes rest

/-- Decode k consecutive 309-byte records (the memcpy into the inode array in
read_metadata). -/
def decodeInodes : List Nat → Nat → List FileMetadata
  | _, 0 => []
  | b, k + 1 => decodeInode (b.take 309) :: decodeInodes (b.drop 309) k

/-- The staging buffer write_metadata composes: the bitmap bytes immediately
followed by the packed inode table (bitmap has totalBlocks entries and files
max_files entries in any mounted state). -/
def serializeMeta (st : BmpFsState) : List Nat :=
  st.bitmap ++ encodeInodes st.files

/-- write_metadata: compose the staging buffer from the live bitmap and inode
array and write it to the metadata region of the image. -/
def write_metadata (st : BmpFsState) : BmpFsState :=
  { st with diskMeta := serializeMeta st }

/-- read_metadata: read metadata_size bytes from the metadata region (short
read is EIO), copy the first totalBlocks bytes into the bitmap and decode the
rest into the inode array. -/
def read_metadata (st : BmpFsState) : Except Errno BmpFsState :=
  if calculate_metadata_size st ≤ st.diskMeta.length then
    let buffer := st.diskMeta.take (calculate_metadata_size st)
    Except.ok { st with
      bitmap := buffer.take (totalBlocks st)
      files := decodeInodes (buffer.drop (totalBlocks st)) st.max_files }
  else Except.error Errno.eio

/-- validate_path: reject a path whose length is at least 256, and a path
whose stripped-leading-slash remainder still contains a slash. -/
def validate_path (path : List Nat) : Except Errno Unit :=
  if 256 ≤ path.length then Except.error Errno.enametoolong
  else
    let p := if path.headD 0 = SLASH then path.tail else path
    if p.contains SLASH then Except.error Errno.einval else Except.ok ()

/-- Strip one leading slash, as the C does with path++ after validation. -/
def stripSlash (path : List Nat) : List Nat :=
  if path.headD 0 = SLASH then path.tail else path

/-- The C string stored in a 256-byte NUL-padded filename array: the bytes up
to the first NUL (what strcmp compares). -/
def strName (f : List Nat) : List Nat := f.takeWhile (fun b => b ≠ 0)

/-- Linear scan of the inode table returning the index of the first record
satisfying the predicate (the for loops over fs_state.files in the source). -/
def scanIdx (p : FileMetadata → Bool) : List FileMetadata → Option Nat
  | [] => none
  | f :: rest => if p f then some 0 else (scanIdx p rest).map (· + 1)

/-- path_to_metadata_index: validate, strip the leading slash, and scan the
inode table for a non-empty slot whose stored name equals the remainder. -/
def path_to_metadata_index (files : List FileMetadata) (path : List Nat) :
    Except Errno Nat :=
  match validate_path path with
  | Except.error e => Except.error e
  | Except.ok _ =>
    match scanIdx
        (fun f => f.filename.headD 0 != 0 && strName f.filename == stripSlash path)
        files with
    | some i => Except.ok i
    | none => Except.error Errno.enoent

/-- The scanning loop of find_free_blocks: position i, current run length
consec, current run start start.  Returns the start of the first run of
num_blocks consecutive zero bytes, or none. -/
def ffb_loop : List Nat → Nat → Nat → Nat → Nat → Option Nat
  | [], _, _, _, _ => none
  | b :: rest, need, i, consec, start =>
    if b = 0 then
      let start1 := if consec = 0 then i else start
      if need ≤ consec + 1 then some start1
      else ffb_loop rest need (i + 1) (consec + 1) start1
    else ffb_loop rest need (i + 1) 0 start

/-- find_free_blocks: 0 for a zero request; otherwise the first-fit linear
scan over the bitmap, UINT32_MAX when no free contiguous run exists. -/
def find_free_blocks (bitmap : List Nat) (num_blocks : Nat) : Nat :=
  if num_blocks = 0 then 0
  else
    match ffb_loop bitmap num_blocks 0 0 0 with
    | some s => s
    | none => UINT32_MAX

/-- Set count consecutive bitmap bytes starting at start to v (the marking and
clearing for loops over fs_state.bitmap in the source). -/
def setRun (bm : List Nat) (start : Nat) : Nat → Nat → List Nat
  | 0, _ => bm
  | n + 1, v => (setRun bm start n v).set (start + n) v

/-- read_blocks: the count * block_size payload bytes starting at block
start (the fread at block_offset(start) in the source). -/
def read_blocks (st : BmpFsState) (start count : Nat) : List Nat :=
  (List.range (count * st.block_size)).map
    (fun j => st.data (start * st.block_size + j))

/-- write_blocks: overwrite the count * block_size payload bytes starting at
block start with the buffer contents. -/
def write_blocks (st : BmpFsState) (start count : Nat) (buf : List Nat) :
    BmpFsState :=
  { st with data := fun a =>
      if start * st.block_size ≤ a ∧ a < start * st.block_size + count * st.block_size
      then buf.getD (a - start * st.block_size) 0
      else st.data a }

/-- memcpy(dst + off, src, src.length): overlay src into dst at offset off. -/
def memcpyAt (dst : List Nat) (off : Nat) (src : List Nat) : List Nat :=
  dst.take off ++ src ++ dst.drop (off + src.length)

/-- The 256-byte NUL-padded filename array strncpy produces from a stripped
path (at most 255 bytes are copied, the rest is NUL). -/
def padName (s : List Nat) : List Nat :=
  s.take 255 ++ List.replicate (256 - (s.take 255).length) 0

/-- first = file.first_block + offset / block_size, the first block touched by
a read or write at the given byte offset. -/
def readStartBlock (meta : FileMetadata) (offset bs : Nat) : Nat :=
  meta.first_block + offset / bs

/-- ceil((size + block_offset) / block_size), the number of blocks touched by
a read or write of size bytes starting block_offset bytes into a block. -/
def readNumBlocks (size bo bs : Nat) : Nat := (size + bo + bs - 1) / bs

/-- The clamped transfer size of bmpfs_read: min(size, file.size - offset). -/
def clampSize (fsize offset size : Nat) : Nat :=
  if fsize < offset + size then fsize - offset else size

/-- bmpfs_create: validate, reject an existing name, take the first free inode
slot, and initialize an empty regular file; persists metadata. -/
def bmpfs_create (st : BmpFsState) (path : List Nat) (mode now uid gid : Nat) :
    Except Errno BmpFsState :=
  match validate_path path with
  | Except.error e => Except.error e
  | Except.ok _ =>
    match path_to_metadata_index st.files path with
    | Except.ok _ => Except.error Errno.eexist
    | Except.error _ =>
      match scanIdx (fun f => f.filename.headD 0 == 0) st.files with
      | none => Except.error Errno.enomem
      | some idx =>
        let meta : FileMetadata :=
          { filename := padName (stripSlash path)
            size := 0, created := now, modified := now, accessed := now
            first_block := UINT32_MAX, num_blocks := 0
            mode := S_IFREG ||| (mode &&& 511), uid := uid, gid := gid
            is_dir := 0 }
        Except.ok (write_metadata { st with files := st.files.set idx meta })

/-- bmpfs_mkdir: as create, but with S_IFDIR and is_dir = 1. -/
def bmpfs_mkdir (st : BmpFsState) (path : List Nat) (mode now uid gid : Nat) :
    Except Errno BmpFsState :=
  match validate_path path with
  | Except.error e => Except.error e
  | Except.ok _ =>
    match path_to_metadata_index st.files path with
    | Except.ok _ => Except.error Errno.eexist
    | Except.error _ =>
      match scanIdx (fun f => f.filename.headD 0 == 0) st.files with
      | none => Except.error Errno.enomem
      | some idx =>
        let meta : FileMetadata :=
          { filename := padName (stripSlash path)
            size := 0, created := now, modified := now, accessed := now
            first_block := UINT32_MAX, num_blocks := 0
            mode := S_IFDIR ||| (mode &&& 511), uid := uid, gid := gid
            is_dir := 1 }
        Except.ok (write_metadata { st with files := st.files.set idx meta })

/-- The all-zero record memset leaves in a freed inode slot. -/
def zeroInode : FileMetadata :=
  { filename := List.replicate 256 0
    size := 0, created := 0, modified := 0, accessed := 0
    first_block := 0, num_blocks := 0, mode := 0, uid := 0, gid := 0
    is_dir := 0 }

/-- bmpfs_unlink: resolve, reject directories, clear the file's bitmap run,
zero the inode slot; persists metadata. -/
def bmpfs_unlink (st : BmpFsState) (path : List Nat) : Except Errno BmpFsState :=
  match path_to_metadata_index st.files path with
  | Except.error e => Except.error e
  | Except.ok idx =>
    let meta := st.files.getD idx default
    if meta.is_dir ≠ 0 then Except.error Errno.eisdir
    else
      let st1 := { st with
        bitmap := setRun st.bitmap meta.first_block meta.num_blocks 0 }
      Except.ok (write_metadata { st1 with files := st1.files.set idx zeroInode })

/-- bmpfs_rmdir: resolve, reject non-directories, clear any bitmap run, zero
the inode slot; persists metadata. -/
def bmpfs_rmdir (st : BmpFsState) (path : List Nat) : Except Errno BmpFsState :=
  match path_to_metadata_index st.files path with
  | Except.error e => Except.error e
  | Except.ok idx =>
    let meta := st.files.getD idx default
    if meta.is_dir = 0 then Except.error Errno.enotdir
    else
      let st1 := { st with
        bitmap := setRun st.bitmap meta.first_block meta.num_blocks 0 }
      Except.ok (write_metadata { st1 with files := st1.files.set idx zeroInode })

/-- bmpfs_open: resolve; EACCES when a directory is opened for writing, when
O_WRONLY is requested with the owner-write bit clear, or when O_RDONLY is
requested with the owner-read bit clear (note O_RDONLY is 0, so the last test
can never fire); updates the accessed time in memory only. -/
def bmpfs_open (st : BmpFsState) (path : List Nat) (flags now : Nat) :
    Except Errno BmpFsState :=
  match path_to_metadata_index st.files path with
  | Except.error e => Except.error e
  | Except.ok idx =>
    let meta := st.files.getD idx default
    if meta.is_dir ≠ 0 ∧ flags &&& O_WRONLY ≠ 0 then Except.error Errno.eacces
    else if flags &&& O_WRONLY ≠ 0 ∧ meta.mode &&& S_IWUSR = 0 then
      Except.error Errno.eacces
    else if flags &&& O_RDONLY ≠ 0 ∧ meta.mode &&& S_IRUSR = 0 then
      Except.error Errno.eacces
    else
      Except.ok { st with files := st.files.set idx { meta with accessed := now } }

/-- bmpfs_utimens: resolve and set the accessed and modified times from the
supplied timespecs (or to now when none are supplied).  The source returns
success without calling write_metadata. -/
def bmpfs_utimens (st : BmpFsState) (path : List Nat)
    (ts : Option (Nat × Nat)) (now : Nat) : Except Errno BmpFsState :=
  match path_to_metadata_index st.files path with
  | Except.error e => Except.error e
  | Except.ok idx =>
    let meta := st.files.getD idx default
    let meta1 := match ts with
      | some (a, m) => { meta with accessed := a, modified := m }
      | none => { meta with accessed := now, modified := now }
    Except.ok { st with files := st.files.set idx meta1 }

/-- bmpfs_read: resolve, reject directories, update accessed, return 0 bytes
at or past end of file, otherwise clamp the size and copy the requested byte
range out of the blocks it straddles. -/
def bmpfs_read (st : BmpFsState) (path : List Nat) (size offset now : Nat) :
    Except Errno (List Nat × BmpFsState) :=
  match path_to_metadata_index st.files path with
  | Except.error e => Except.error e
  | Except.ok idx =>
    let meta := st.files.getD idx default
    if meta.is_dir ≠ 0 then Except.error Errno.eisdir
    else
      let st1 := { st with files := st.files.set idx { meta with accessed := now } }
      if meta.size ≤ offset then Except.ok ([], st1)
      else
        let size1 := clampSize meta.size offset size
        let start_block := readStartBlock meta offset st.block_size
        let block_offset := offset % st.block_size
        let blocks_to_read := readNumBlocks size1 block_offset st.block_size
        let temp := read_blocks st1 start_block blocks_to_read
        Except.ok ((temp.drop block_offset).take size1, st1)

/-- bmpfs_write: resolve, reject directories, check size_t overflow of
offset + size; when more blocks are needed, find a fresh contiguous run,
copy the existing blocks there, clear the old run and mark the new one; then
read-modify-write the affected blocks with the payload, update size and
modified, and persist metadata.  Returns the byte count written. -/
def bmpfs_write (st : BmpFsState) (path buf : List Nat) (size offset now : Nat) :
    Except Errno (Nat × BmpFsState) :=
  match path_to_metadata_index st.files path with
  | Except.error e => Except.error e
  | Except.ok idx =>
    let meta := st.files.getD idx default
    if meta.is_dir ≠ 0 then Except.error Errno.eisdir
    else
      let new_size := (offset + size) % U64
      if new_size < offset then Except.error Errno.efbig
      else
        let new_blocks := (new_size + st.block_size - 1) / st.block_size
        let growRes : Except Errno (BmpFsState × FileMetadata) :=
          if meta.num_blocks < new_blocks then
            let new_start := find_free_blocks st.bitmap new_blocks
            if new_start = UINT32_MAX then Except.error Errno.enospc
            else
              let st1 :=
                if 0 < meta.num_blocks then
                  let tmp := read_blocks st meta.first_block meta.num_blocks
                  let sta := write_blocks st new_start meta.num_blocks tmp
                  { sta with
                    bitmap := setRun sta.bitmap meta.first_block meta.num_blocks 0 }
                else st
              let st2 := { st1 with
                bitmap := setRun st1.bitmap new_start new_blocks 1 }
              Except.ok (st2, { meta with
                first_block := new_start, num_blocks := new_blocks })
          else Except.ok (st, meta)
        match growRes with
        | Except.error e => Except.error e
        | Except.ok (st2, meta2) =>
          let start_block := readStartBlock meta2 offset st.block_size
          let block_offset := offset % st.block_size
          let blocks_to_write := readNumBlocks size block_offset st.block_size
          let temp :=
            if 0 < block_offset ∨ size % st.block_size ≠ 0 then
              read_blocks st2 start_block blocks_to_write
            else List.replicate (blocks_to_write * st.block_size) 0
          let temp2 := memcpyAt temp block_offset (buf.take size)
          let st3 := write_blocks st2 start_block blocks_to_write temp2
          let meta3 := { meta2 with
            size := if meta2.size < new_size then new_size else meta2.size
            modified := now }
          let st4 := { st3 with files := st3.files.set idx meta3 }
          Except.ok (size, write_metadata st4)

/-- bmpfs_truncate: resolve, reject directories; free everything at size 0,
clear the tail of the run when shrinking, relocate-and-copy when growing, and
do nothing to the inode when the block count is unchanged (the source updates
neither size nor modified in that branch); persists metadata. -/
def bmpfs_truncate (st : BmpFsState) (path : List Nat) (size now : Nat) :
    Except Errno BmpFsState :=
  match path_to_metadata_index st.files path with
  | Except.error e => Except.error e
  | Except.ok idx =>
    let meta := st.files.getD idx default
    if meta.is_dir ≠ 0 then Except.error Errno.eisdir
    else
      let new_blocks := (size + st.block_size - 1) / st.block_size
      if size = 0 then
        let st1 := { st with
          bitmap := setRun st.bitmap meta.first_block meta.num_blocks 0 }
        let meta1 := { meta with
          first_block := UINT32_MAX, num_blocks := 0, size := 0, modified := now }
        Except.ok (write_metadata { st1 with files := st1.files.set idx meta1 })
      else if new_blocks < meta.num_blocks then
        let st1 := { st with
          bitmap := setRun st.bitmap (meta.first_block + new_blocks)
            (meta.num_blocks - new_blocks) 0 }
        let meta1 := { meta with
          num_blocks := new_blocks, size := size, modified := now }
        Except.ok (write_metadata { st1 with files := st1.files.set idx meta1 })
      else if meta.num_blocks < new_blocks then
        let new_start := find_free_blocks st.bitmap new_blocks
        if new_start = UINT32_MAX then Except.error Errno.enospc
        else
          let st1 :=
            if 0 < meta.num_blocks then
              let tmp := read_blocks st meta.first_block meta.num_blocks
              let sta := write_blocks st new_start meta.num_blocks tmp
              { sta with
                bitmap := setRun sta.bitmap meta.first_block meta.num_blocks 0 }
            else st
          let st2 := { st1 with bitmap := setRun st1.bitmap new_start new_blocks 1 }
          let meta1 := { meta with
            first_block := new_start, num_blocks := new_blocks
            size := size, modified := now }
          Except.ok (write_metadata { st2 with files := st2.files.set idx meta1 })
      else
        Except.ok (write_metadata st)

end Bmpfs

namespace Bmpfs

/-! ### Allocator correctness (find_free_blocks) -/

/-- A run of n free (zero) bitmap bytes starting at s, entirely in bounds. -/
def isFreeRun (bm : List Nat) (s n : Nat) : Prop :=
  s + n ≤ bm.length ∧ ∀ j, j < n → bm[s + j]? = some 0

instance (bm : List Nat) (s n : Nat) : Decidable (isFreeRun bm s n) := by
  unfold isFreeRun; infer_instance

/-- Invariant-carrying specification of the find_free_blocks scanning loop:
at position i with a current zero run of length consec ending just before i
(whose start the accumulator records), and with no free run of length need
starting before that current run, the loop returns the first free run of
length need, or none when no such run exists. -/
theorem ffb_loop_spec (bm : List Nat) (need : Nat) (hneed : 1 ≤ need) :
    ∀ (rest : List Nat) (i consec start : Nat),
      rest = bm.drop i →
      consec < need → consec ≤ i →
      (∀ j, j < consec → bm[i - consec + j]? = some 0) →
      (0 < consec → start = i - consec) →
      (∀ p, p < i - consec → ¬ isFreeRun bm p need) →
      (∀ s, ffb_loop rest need i consec start = some s →
        isFreeRun bm s need ∧ ∀ p, p < s → ¬ isFreeRun bm p need) ∧
      (ffb_loop rest need i consec start = none → ∀ p, ¬ isFreeRun bm p need) := by
  intro rest
  induction rest with
  | nil =>
    intro i consec start hdrop hcons hci hzero hstart hmin
    have hlen : bm.length ≤ i := by
      have := List.drop_eq_nil_iff.mp hdrop.symm
      omega
    constructor
    · intro s hs; simp [ffb_loop] at hs
    · intro _ p hrun
      have hb := hrun.1
      by_cases hp : p < i - consec
      · exact hmin p hp hrun
      · omega
  | cons b rest2 ih =>
    intro i consec start hdrop hcons hci hzero hstart hmin
    have hne : bm.drop i ≠ [] := by rw [← hdrop]; simp
    have hilen : i < bm.length := by
      by_contra hcon
      exact hne (List.drop_eq_nil_iff.mpr (by omega))
    have hb : bm[i]? = some b := by
      have h1 : (bm.drop i).head? = some b := by rw [← hdrop]; rfl
      rw [List.head?_drop] at h1; exact h1
    have hdrop2 : rest2 = bm.drop (i + 1) := by
      have h1 : (bm.drop i).tail = rest2 := by rw [← hdrop]; rfl
      rw [List.tail_drop] at h1; exact h1.symm
    by_cases hbz : b = 0
    · -- current byte free: extend the run
      subst hbz
      have hstart1 : (if consec = 0 then i else start) = i - consec := by
        by_cases hc0 : consec = 0
        · simp [hc0]
        · simp [hc0, hstart (by omega)]
      by_cases hfin : need ≤ consec + 1
      · have hister : ffb_loop (0 :: rest2) need i consec start = some (i - consec) := by
          simp [ffb_loop, hfin, hstart1]
        constructor
        · intro s hs
          rw [hister] at hs
          injection hs with hs
          subst hs
          have hrun : isFreeRun bm (i - consec) need := by
            constructor
            · omega
            · intro j hj
              by_cases hjc : j < consec
              · exact hzero j hjc
              · have hji : i - consec + j = i := by omega
                rw [hji]; exact hb
          exact ⟨hrun, hmin⟩
        · intro hnone; rw [hister] at hnone; exact absurd hnone (by simp)
      · have hister : ffb_loop (0 :: rest2) need i consec start
            = ffb_loop rest2 need (i + 1) (consec + 1) (i - consec) := by
          simp [ffb_loop, hfin, hstart1]
        have hrec := ih (i + 1) (consec + 1) (i - consec) hdrop2
          (by omega) (by omega)
          (by
            intro j hj
            have harith : i + 1 - (consec + 1) = i - consec := by omega
            rw [harith]
            by_cases hjc : j < consec
            · exact hzero j hjc
            · have hji : i - consec + j = i := by omega
              rw [hji]; exact hb)
          (by intro _; omega)
          (by
            intro p hp
            exact hmin p (by omega))
        rw [hister]
        exact hrec
    · -- current byte used: reset the run
      have hister : ffb_loop (b :: rest2) need i consec start
          = ffb_loop rest2 need (i + 1) 0 start := by
        simp [ffb_loop, hbz]
      have hmin2 : ∀ p, p < i + 1 - 0 → ¬ isFreeRun bm p need := by
        intro p hp hrun
        by_cases hplow : p < i - consec
        · exact hmin p hplow hrun
        · rcases hrun with ⟨hbnd, hz⟩
          have hip : i - p < need := by omega
          have := hz (i - p) hip
          have harith : p + (i - p) = i := by omega
          rw [harith, hb] at this
          injection this with this
          exact hbz this
      have hrec := ih (i + 1) 0 start hdrop2 (by omega) (by omega)
        (by intro j hj; omega) (by intro h; omega) hmin2
      rw [hister]
      exact hrec

/-- Reduction of find_free_blocks when the scanning loop finds a run. -/
theorem find_free_blocks_eq_some (bm : List Nat) (n s : Nat) (hn : ¬ n = 0)
    (h : ffb_loop bm n 0 0 0 = some s) : find_free_blocks bm n = s := by
  simp [find_free_blocks, hn, h]

/-- Reduction of find_free_blocks when the scanning loop finds no run. -/
theorem find_free_blocks_eq_none (bm : List Nat) (n : Nat) (hn : ¬ n = 0)
    (h : ffb_loop bm n 0 0 0 = none) : find_free_blocks bm n = UINT32_MAX := by
  simp [find_free_blocks, hn, h]

/-- If find_free_blocks (with a positive request) does not return the
sentinel, its result is an in-bounds free run of the requested length, and no
smaller start begins such a run. -/
theorem find_free_blocks_run (bm : List Nat) (n : Nat) (hn : 1 ≤ n)
    (h : find_free_blocks bm n ≠ UINT32_MAX) :
    isFreeRun bm (find_free_blocks bm n) n ∧
    ∀ p, p < find_free_blocks bm n → ¬ isFreeRun bm p n := by
  have hspec := ffb_loop_spec bm n hn bm 0 0 0 (by simp) (by omega) (by omega)
    (by intro j hj; omega) (by intro h; omega) (by intro p hp; omega)
  have hn0 : ¬ n = 0 := by omega
  cases hloop : ffb_loop bm n 0 0 0 with
  | none => exact absurd (find_free_blocks_eq_none bm n hn0 hloop) h
  | some s =>
    rw [find_free_blocks_eq_some bm n s hn0 hloop]
    exact hspec.1 s hloop

/-- Claim C3: for a request of n ≥ 1 blocks, when find_free_blocks returns a
start s rather than the UINT32_MAX sentinel, the bitmap bytes of [s, s+n) are
all zero, s + n ≤ total_blocks, and s is the smallest start of such a run; it
returns the sentinel exactly when no run of n consecutive zero bytes exists;
and a request of 0 blocks returns 0. -/
theorem claim_C3 (bm : List Nat) (n : Nat) (hlen : bm.length < UINT32_MAX) :
    find_free_blocks bm 0 = 0 ∧
    (1 ≤ n →
      (find_free_blocks bm n ≠ UINT32_MAX →
        isFreeRun bm (find_free_blocks bm n) n ∧
        ∀ p, p < find_free_blocks bm n → ¬ isFreeRun bm p n) ∧
      (find_free_blocks bm n = UINT32_MAX ↔ ∀ p, ¬ isFreeRun bm p n)) := by
  refine ⟨by simp [find_free_blocks], ?_⟩
  intro hn
  refine ⟨find_free_blocks_run bm n hn, ?_⟩
  constructor
  · intro hsent
    have hspec := ffb_loop_spec bm n hn bm 0 0 0 (by simp) (by omega) (by omega)
      (by intro j hj; omega) (by intro h; omega) (by intro p hp; omega)
    cases hloop : ffb_loop bm n 0 0 0 with
    | none => exact hspec.2 hloop
    | some s =>
      rw [find_free_blocks_eq_some bm n s (by omega) hloop] at hsent
      have hbnd := (hspec.1 s hloop).1.1
      exfalso
      omega
  · intro hnone
    by_contra hsent
    have hrun := (find_free_blocks_run bm n hn hsent).1
    exact hnone (find_free_blocks bm n) hrun

/-- Witness for claim C3 at a concrete bitmap: the search for a 2-run in
[1,0,0,1] returns a free in-bounds run (namely start 1). -/
theorem claim_C3_witness :
    isFreeRun [1, 0, 0, 1] (find_free_blocks [1, 0, 0, 1] 2) 2 :=
  ((((claim_C3 [1, 0, 0, 1] 2 (by decide)).2 (by decide)).1) (by decide)).1

end Bmpfs

namespace Bmpfs

/-! ### Metadata round-trip (read_metadata after write_metadata) -/

/-- A well-formed inode record: the filename array is exactly 256 bytes and
every numeric field fits its C integer type. -/
def wfInode (m : FileMetadata) : Prop :=
  m.filename.length = 256 ∧ m.size < 2 ^ 64 ∧ m.created < 2 ^ 64 ∧
  m.modified < 2 ^ 64 ∧ m.accessed < 2 ^ 64 ∧ m.first_block < 2 ^ 32 ∧
  m.num_blocks < 2 ^ 32 ∧ m.mode < 2 ^ 32 ∧ m.uid < 2 ^ 32 ∧ m.gid < 2 ^ 32 ∧
  m.is_dir < 256

instance (m : FileMetadata) : Decidable (wfInode m) := by
  unfold wfInode; infer_instance

theorem toLE_length (w n : Nat) : (toLE w n).length = w := by
  induction w generalizing n with
  | zero => rfl
  | succ w ih => simp [toLE, ih]

theorem fromLE_toLE (w n : Nat) (h : n < 256 ^ w) : fromLE (toLE w n) = n := by
  induction w generalizing n with
  | zero => simp [pow_zero] at h; simp [toLE, fromLE, h]
  | succ w ih =>
    have hdiv : n / 256 < 256 ^ w := by
      rw [Nat.div_lt_iff_lt_mul (by norm_num)]
      calc n < 256 ^ (w + 1) := h
        _ = 256 ^ w * 256 := by ring
    simp only [toLE, fromLE, ih (n / 256) hdiv]
    omega

theorem take_append_eq (l r : List Nat) (k : Nat) (h : l.length = k) :
    (l ++ r).take k = l := by
  subst h; exact List.take_left l r

theorem drop_append_eq (l r : List Nat) (k : Nat) (h : l.length = k) :
    (l ++ r).drop k = r := by
  subst h; exact List.drop_left l r

theorem encodeInode_length (m : FileMetadata) (h : m.filename.length = 256) :
    (encodeInode m).length = 309 := by
  simp [encodeInode, toLE_length, h]

theorem fm_ext (a b : FileMetadata)
    (h1 : a.filename = b.filename) (h2 : a.size = b.size)
    (h3 : a.created = b.created) (h4 : a.modified = b.modified)
    (h5 : a.accessed = b.accessed) (h6 : a.first_block = b.first_block)
    (h7 : a.num_blocks = b.num_blocks) (h8 : a.mode = b.mode)
    (h9 : a.uid = b.uid) (h10 : a.gid = b.gid) (h11 : a.is_dir = b.is_dir) :
    a = b := by
  cases a; cases b
  simp only [FileMetadata.mk.injEq]
  exact ⟨h1, h2, h3, h4, h5, h6, h7, h8, h9, h10, h11⟩

/-- Decoding the packed byte image of a well-formed inode recovers it. -/
theorem decodeInode_encodeInode (m : FileMetadata) (h : wfInode m) :
    decodeInode (encodeInode m) = m := by
  obtain ⟨hfn, hsz, hcr, hmo, hac, hfb, hnb, hmd, hui, hgi, hdr⟩ := h
  have hE : encodeInode m =
      m.filename ++ (toLE 8 m.size ++ (toLE 8 m.created ++ (toLE 8 m.modified ++
      (toLE 8 m.accessed ++ (toLE 4 m.first_block ++ (toLE 4 m.num_blocks ++
      (toLE 4 m.mode ++ (toLE 4 m.uid ++ (toLE 4 m.gid ++ [m.is_dir]))))))))) := by
    simp [encodeInode, List.append_assoc]
  have d256 : (encodeInode m).drop 256 =
      toLE 8 m.size ++ (toLE 8 m.created ++ (toLE 8 m.modified ++
      (toLE 8 m.accessed ++ (toLE 4 m.first_block ++ (toLE 4 m.num_blocks ++
      (toLE 4 m.mode ++ (toLE 4 m.uid ++ (toLE 4 m.gid ++ [m.is_dir])))))))) := by
    rw [hE]; exact drop_append_eq _ _ _ hfn
  have d264 : (encodeInode m).drop 264 =
      toLE 8 m.created ++ (toLE 8 m.modified ++
      (toLE 8 m.accessed ++ (toLE 4 m.first_block ++ (toLE 4 m.num_blocks ++
      (toLE 4 m.mode ++ (toLE 4 m.uid ++ (toLE 4 m.gid ++ [m.is_dir]))))))) := by
    have : (encodeInode m).drop 264 = ((encodeInode m).drop 256).drop 8 := by
      rw [List.drop_drop]
    rw [this, d256]; exact drop_append_eq _ _ _ (toLE_length 8 m.size)
  have d272 : (encodeInode m).drop 272 =
      toLE 8 m.modified ++
      (toLE 8 m.accessed ++ (toLE 4 m.first_block ++ (toLE 4 m.num_blocks ++
      (toLE 4 m.mode ++ (toLE 4 m.uid ++ (toLE 4 m.gid ++ [m.is_dir])))))) := by
    have : (encodeInode m).drop 272 = ((encodeInode m).drop 264).drop 8 := by
      rw [List.drop_drop]
    rw [this, d264]; exact drop_append_eq _ _ _ (toLE_length 8 m.created)
  have d280 : (encodeInode m).drop 280 =
      toLE 8 m.accessed ++ (toLE 4 m.first_block ++ (toLE 4 m.num_blocks ++
      (toLE 4 m.mode ++ (toLE 4 m.uid ++ (toLE 4 m.gid ++ [m.is_dir]))))) := by
    have : (encodeInode m).drop 280 = ((encodeInode m).drop 272).drop 8 := by
      rw [List.drop_drop]
    rw [this, d272]; exact drop_append_eq _ _ _ (toLE_length 8 m.modified)
  have d288 : (encodeInode m).drop 288 =
      toLE 4 m.first_block ++ (toLE 4 m.num_blocks ++
      (toLE 4 m.mode ++ (toLE 4 m.uid ++ (toLE 4 m.gid ++ [m.is_dir])))) := by
    have : (encodeInode m).drop 288 = ((encodeInode m).drop 280).drop 8 := by
      rw [List.drop_drop]
    rw [this, d280]; exact drop_append_eq _ _ _ (toLE_length 8 m.accessed)
  have d292 : (encodeInode m).drop 292 =
      toLE 4 m.num_blocks ++
      (toLE 4 m.mode ++ (toLE 4 m.uid ++ (toLE 4 m.gid ++ [m.is_dir]))) := by
    have : (encodeInode m).drop 292 = ((encodeInode m).drop 288).drop 4 := by
      rw [List.drop_drop]
    rw [this, d288]; exact drop_append_eq _ _ _ (toLE_length 4 m.first_block)
  have d296 : (encodeInode m).drop 296 =
      toLE 4 m.mode ++ (toLE 4 m.uid ++ (toLE 4 m.gid ++ [m.is_dir])) := by
    have : (encodeInode m).drop 296 = ((encodeInode m).drop 292).drop 4 := by
      rw [List.drop_drop]
    rw [this, d292]; exact drop_append_eq _ _ _ (toLE_length 4 m.num_blocks)
  have d300 : (encodeInode m).drop 300 =
      toLE 4 m.uid ++ (toLE 4 m.gid ++ [m.is_dir]) := by
    have : (encodeInode m).drop 300 = ((encodeInode m).drop 296).drop 4 := by
      rw [List.drop_drop]
    rw [this, d296]; exact drop_append_eq _ _ _ (toLE_length 4 m.mode)
  have d304 : (encodeInode m).drop 304 = toLE 4 m.gid ++ [m.is_dir] := by
    have : (encodeInode m).drop 304 = ((encodeInode m).drop 300).drop 4 := by
      rw [List.drop_drop]
    rw [this, d300]; exact drop_append_eq _ _ _ (toLE_length 4 m.uid)
  have d308 : (encodeInode m).drop 308 = [m.is_dir] := by
    have : (encodeInode m).drop 308 = ((encodeInode m).drop 304).drop 4 := by
      rw [List.drop_drop]
    rw [this, d304]; exact drop_append_eq _ _ _ (toLE_length 4 m.gid)
  have hgd : (encodeInode m).getD 308 0 = m.is_dir := by
    rw [List.getD_eq_getElem?_getD]
    have h1 : (encodeInode m)[308]? = ((encodeInode m).drop 308)[0]? := by
      rw [List.getElem?_drop]
    rw [h1, d308]; rfl
  have hB : (256 : Nat) ^ 4 = 2 ^ 32 := by norm_num
  have hB8 : (256 : Nat) ^ 8 = 2 ^ 64 := by norm_num
  apply fm_ext
  · show (encodeInode m).take 256 = m.filename
    rw [hE]; exact take_append_eq _ _ _ hfn
  · show fromLE (((encodeInode m).drop 256).take 8) = m.size
    rw [d256, take_append_eq _ _ _ (toLE_length 8 m.size)]
    exact fromLE_toLE 8 m.size (by rw [hB8]; exact hsz)
  · show fromLE (((encodeInode m).drop 264).take 8) = m.created
    rw [d264, take_append_eq _ _ _ (toLE_length 8 m.created)]
    exact fromLE_toLE 8 m.created (by rw [hB8]; exact hcr)
  · show fromLE (((encodeInode m).drop 272).take 8) = m.modified
    rw [d272, take_append_eq _ _ _ (toLE_length 8 m.modified)]
    exact fromLE_toLE 8 m.modified (by rw [hB8]; exact hmo)
  · show fromLE (((encodeInode m).drop 280).take 8) = m.accessed
    rw [d280, take_append_eq _ _ _ (toLE_length 8 m.accessed)]
    exact fromLE_toLE 8 m.accessed (by rw [hB8]; exact hac)
  · show fromLE (((encodeInode m).drop 288).take 4) = m.first_block
    rw [d288, take_append_eq _ _ _ (toLE_length 4 m.first_block)]
    exact fromLE_toLE 4 m.first_block (by rw [hB]; exact hfb)
  · show fromLE (((encodeInode m).drop 292).take 4) = m.num_blocks
    rw [d292, take_append_eq _ _ _ (toLE_length 4 m.num_blocks)]
    exact fromLE_toLE 4 m.num_blocks (by rw [hB]; exact hnb)
  · show fromLE (((encodeInode m).drop 296).take 4) = m.mode
    rw [d296, take_append_eq _ _ _ (toLE_length 4 m.mode)]
    exact fromLE_toLE 4 m.mode (by rw [hB]; exact hmd)
  · show fromLE (((encodeInode m).drop 300).take 4) = m.uid
    rw [d300, take_append_eq _ _ _ (toLE_length 4 m.uid)]
    exact fromLE_toLE 4 m.uid (by rw [hB]; exact hui)
  · show fromLE (((encodeInode m).drop 304).take 4) = m.gid
    rw [d304, take_append_eq _ _ _ (toLE_length 4 m.gid)]
    exact fromLE_toLE 4 m.gid (by rw [hB]; exact hgi)
  · exact hgd

theorem encodeInodes_length (files : List FileMetadata)
    (h : ∀ m ∈ files, wfInode m) :
    (encodeInodes files).length = files.length * 309 := by
  induction files with
  | nil => rfl
  | cons m fs ih =>
    have hm := h m (by simp)
    have hfs : ∀ x ∈ fs, wfInode x := fun x hx => h x (List.mem_cons_of_mem m hx)
    simp only [encodeInodes, List.length_append, List.length_cons,
      encodeInode_length m hm.1, ih hfs]
    ring

/-- Decoding the packed byte image of a well-formed inode table (with any
trailing bytes) recovers the table. -/
theorem decodeInodes_encodeInodes (files : List FileMetadata) (rest : List Nat)
    (h : ∀ m ∈ files, wfInode m) :
    decodeInodes (encodeInodes files ++ rest) files.length = files := by
  induction files generalizing rest with
  | nil => rfl
  | cons m fs ih =>
    have hm := h m (by simp)
    have hfs : ∀ x ∈ fs, wfInode x := fun x hx => h x (List.mem_cons_of_mem m hx)
    have hass : encodeInodes (m :: fs) ++ rest
        = encodeInode m ++ (encodeInodes fs ++ rest) := by
      simp [encodeInodes, List.append_assoc]
    have hlen : (encodeInode m).length = 309 := encodeInode_length m hm.1
    show decodeInode ((encodeInodes (m :: fs) ++ rest).take 309) ::
        decodeInodes ((encodeInodes (m :: fs) ++ rest).drop 309) fs.length
        = m :: fs
    rw [hass, take_append_eq _ _ _ hlen, drop_append_eq _ _ _ hlen,
      decodeInode_encodeInode m hm, ih rest hfs]

/-- read_metadata is the identity (as an ok result) on a state whose metadata
region decodes to its own live bitmap and inode table. -/
theorem read_metadata_self (st : BmpFsState)
    (hcond : calculate_metadata_size st ≤ st.diskMeta.length)
    (hbit : (st.diskMeta.take (calculate_metadata_size st)).take (totalBlocks st)
      = st.bitmap)
    (hfil : decodeInodes
      ((st.diskMeta.take (calculate_metadata_size st)).drop (totalBlocks st))
      st.max_files = st.files) :
    read_metadata st = Except.ok st := by
  unfold read_metadata
  rw [if_pos hcond]
  simp only [hbit, hfil]

/-- Claim C4: on a well-formed volume state (bitmap of total_blocks bytes,
inode table of max_files 309-byte records), read_metadata after
write_metadata succeeds and restores exactly the same bitmap contents and
inode-table contents. -/
theorem claim_C4 (st : BmpFsState) (hbm : st.bitmap.length = totalBlocks st)
    (hf : st.files.length = st.max_files)
    (hwf : ∀ m ∈ st.files, wfInode m) :
    read_metadata (write_metadata st) = Except.ok (write_metadata st) ∧
    (write_metadata st).bitmap = st.bitmap ∧
    (write_metadata st).files = st.files := by
  have hdlen : (serializeMeta st).length = calculate_metadata_size st := by
    simp only [serializeMeta, calculate_metadata_size, List.length_append,
      encodeInodes_length st.files hwf, hbm, hf]
  have htake : (serializeMeta st).take (calculate_metadata_size st)
      = serializeMeta st := by
    rw [← hdlen, List.take_length]
  have hbit : (serializeMeta st).take (totalBlocks st) = st.bitmap := by
    unfold serializeMeta
    exact take_append_eq _ _ _ hbm
  have hfil : decodeInodes ((serializeMeta st).drop (totalBlocks st))
      st.max_files = st.files := by
    unfold serializeMeta
    rw [drop_append_eq _ _ _ hbm, ← hf]
    have h0 := decodeInodes_encodeInodes st.files [] hwf
    simpa using h0
  refine ⟨?_, rfl, rfl⟩
  apply read_metadata_self (write_metadata st)
  · show calculate_metadata_size st ≤ (serializeMeta st).length
    rw [hdlen]
  · show ((serializeMeta st).take (calculate_metadata_size st)).take
        (totalBlocks st) = st.bitmap
    rw [htake]; exact hbit
  · show decodeInodes
        (((serializeMeta st).take (calculate_metadata_size st)).drop
          (totalBlocks st)) st.max_files = st.files
    rw [htake]; exact hfil

/-- A concrete well-formed one-file volume used by several witnesses. -/
def w4file : FileMetadata :=
  { filename := padName [97]
    size := 5, created := 1, modified := 2, accessed := 3
    first_block := 0, num_blocks := 1, mode := 33188, uid := 0, gid := 0
    is_dir := 0 }

/-- A concrete two-block, one-slot volume used by several witnesses. -/
def w4st : BmpFsState :=
  { data_size := 1024, block_size := 512, max_files := 1
    bitmap := [1, 0], files := [w4file], diskMeta := [], data := fun _ => 0 }

set_option maxRecDepth 4000 in
/-- Witness for claim C4 at a concrete volume state. -/
theorem claim_C4_witness :
    read_metadata (write_metadata w4st) = Except.ok (write_metadata w4st) :=
  (claim_C4 w4st (by decide) (by decide) (by decide)).1

end Bmpfs

namespace Bmpfs

/-! ### Concrete behaviour of truncate (equal block count), open (permission
checks) and utimens (persistence) -/

/-- Option-valued projection of an operation result: the size and num_blocks
of inode slot 0 together with the bitmap, or none when the operation failed. -/
def truncView (r : Except Errno BmpFsState) : Option (Nat × Nat × List Nat) :=
  match r with
  | Except.ok st =>
    some ((st.files.getD 0 default).size, (st.files.getD 0 default).num_blocks,
      st.bitmap)
  | Except.error _ => none

/-- True when the operation succeeded, false when it returned an error. -/
def exceptIsOk {α : Type} : Except Errno α → Bool
  | Except.ok _ => true
  | Except.error _ => false

/-- Whether a successful operation left the on-image metadata region equal to
the serialization of the live bitmap and inode table (the post-condition
write_metadata establishes). -/
def metaPersisted : Except Errno BmpFsState → Option Bool
  | Except.ok st => some (st.diskMeta == serializeMeta st)
  | Except.error _ => none

/-- A regular file of 100 bytes occupying one block. -/
def w6file : FileMetadata :=
  { filename := padName [99]
    size := 100, created := 1, modified := 2, accessed := 3
    first_block := 0, num_blocks := 1, mode := 33188, uid := 0, gid := 0
    is_dir := 0 }

/-- A two-block volume holding w6file in block 0. -/
def w6st : BmpFsState :=
  { data_size := 1024, block_size := 512, max_files := 1
    bitmap := [1, 0], files := [w6file], diskMeta := [], data := fun _ => 0 }

set_option maxRecDepth 4000 in
/-- Claim C6 (code bug): truncating the 100-byte one-block file to 50 bytes
(so need = ceil(50/512) = 1 = num_blocks) succeeds and leaves first_block,
num_blocks and the bitmap unchanged, but the stored size stays 100 instead of
being updated to 50: the source's truncate has no branch for
need == num_blocks and persists the inode unchanged. -/
theorem claim_C6 :
    truncView (bmpfs_truncate w6st [47, 99] 50 7) = some (100, 1, [1, 0]) := by
  decide

/-- A regular file whose owner-read bit is clear (mode 0100200). -/
def w7file : FileMetadata :=
  { filename := padName [97]
    size := 0, created := 1, modified := 2, accessed := 3
    first_block := UINT32_MAX, num_blocks := 0
    mode := S_IFREG ||| S_IWUSR, uid := 0, gid := 0, is_dir := 0 }

/-- A volume holding only w7file. -/
def w7st : BmpFsState :=
  { data_size := 1024, block_size := 512, max_files := 1
    bitmap := [0, 0], files := [w7file], diskMeta := [], data := fun _ => 0 }

/-- A regular file whose owner-write bit is clear (mode 0100400). -/
def w7bfile : FileMetadata := { w7file with mode := S_IFREG ||| S_IRUSR }

/-- A volume holding only w7bfile. -/
def w7bst : BmpFsState := { w7st with files := [w7bfile] }

set_option maxRecDepth 4000 in
/-- Claim C7 (code bug): opening the owner-read-clear file with flags
requesting read (O_RDONLY = 0) succeeds instead of returning EACCES, because
the source tests flags AND O_RDONLY, which is always zero; likewise opening
the owner-write-clear file with flags requesting write via O_RDWR (= 2)
succeeds, because the source tests only the O_WRONLY bit. -/
theorem claim_C7 :
    exceptIsOk (bmpfs_open w7st [47, 97] O_RDONLY 5) = true ∧
    exceptIsOk (bmpfs_open w7bst [47, 97] 2 5) = true := by
  decide

/-- The one-file volume w4st with its metadata region freshly persisted. -/
def w5st : BmpFsState := write_metadata w4st

set_option maxRecDepth 8000 in
/-- Claim C5 (code bug): utimens on a fully persisted volume succeeds and
updates the resolved inode's accessed and modified times in memory, but
returns without calling write_metadata, so the on-image metadata region no
longer matches the serialization of the live state. -/
theorem claim_C5 :
    metaPersisted (bmpfs_utimens w5st [47, 97] (some (5, 6)) 9) = some false ∧
    (match bmpfs_utimens w5st [47, 97] (some (5, 6)) 9 with
      | Except.ok st => some ((st.files.getD 0 default).accessed,
          (st.files.getD 0 default).modified)
      | Except.error _ => none) = some (5, 6) := by
  constructor
  · decide
  · decide

end Bmpfs

namespace Bmpfs

/-! ### Read stays inside the file's block run -/

/-- Claim C10: on a regular file satisfying the data-model invariant
num_blocks ≥ ceil(size/block_size), a read at 0 ≤ offset < size succeeds, and
the block range it reads, from readStartBlock = first_block + offset/512
through readStartBlock + readNumBlocks(clamped_size, offset mod 512), lies
entirely within the file's own run [first_block, first_block + num_blocks),
so no block outside the file's allocation is accessed. -/
theorem claim_C10 (st : BmpFsState) (path : List Nat) (size offset now idx : Nat)
    (hidx : path_to_metadata_index st.files path = Except.ok idx)
    (hbs : st.block_size = 512)
    (hdir : (st.files.getD idx default).is_dir = 0)
    (hinv : ((st.files.getD idx default).size + 511) / 512
      ≤ (st.files.getD idx default).num_blocks)
    (hoff : offset < (st.files.getD idx default).size) :
    exceptIsOk (bmpfs_read st path size offset now) = true ∧
    (st.files.getD idx default).first_block
      ≤ readStartBlock (st.files.getD idx default) offset st.block_size ∧
    readStartBlock (st.files.getD idx default) offset st.block_size +
      readNumBlocks (clampSize (st.files.getD idx default).size offset size)
        (offset % st.block_size) st.block_size
      ≤ (st.files.getD idx default).first_block
        + (st.files.getD idx default).num_blocks := by
  refine ⟨?_, ?_, ?_⟩
  · simp only [bmpfs_read, hidx]
    rw [if_neg (by rw [hdir]; omega)]
    rw [if_neg (by omega)]
    rfl
  · unfold readStartBlock
    exact Nat.le_add_right _ _
  · unfold readStartBlock readNumBlocks clampSize
    rw [hbs]
    split_ifs with h
    · omega
    · omega

/-- Witness for claim C10: a concrete read of 10 bytes at offset 5 from a
100-byte one-block file stays within the run. -/
theorem claim_C10_witness :
    exceptIsOk (bmpfs_read w6st [47, 99] 10 5 8) = true :=
  (claim_C10 w6st [47, 99] 10 5 8 0 (by rfl) (by decide)
    (by decide) (by decide) (by decide)).1

end Bmpfs

namespace Bmpfs

/-! ### Projection helpers for the state transformers -/

theorem write_blocks_data (st : BmpFsState) (s c : Nat) (b : List Nat) (a : Nat) :
    (write_blocks st s c b).data a =
      if s * st.block_size ≤ a ∧ a < s * st.block_size + c * st.block_size
      then b.getD (a - s * st.block_size) 0 else st.data a := rfl

@[simp] theorem write_blocks_bitmap (st : BmpFsState) (s c : Nat) (b : List Nat) :
    (write_blocks st s c b).bitmap = st.bitmap := rfl

@[simp] theorem write_blocks_files (st : BmpFsState) (s c : Nat) (b : List Nat) :
    (write_blocks st s c b).files = st.files := rfl

@[simp] theorem write_blocks_diskMeta (st : BmpFsState) (s c : Nat) (b : List Nat) :
    (write_blocks st s c b).diskMeta = st.diskMeta := rfl

@[simp] theorem write_blocks_data_size (st : BmpFsState) (s c : Nat) (b : List Nat) :
    (write_blocks st s c b).data_size = st.data_size := rfl

@[simp] theorem write_blocks_block_size (st : BmpFsState) (s c : Nat) (b : List Nat) :
    (write_blocks st s c b).block_size = st.block_size := rfl

@[simp] theorem write_blocks_max_files (st : BmpFsState) (s c : Nat) (b : List Nat) :
    (write_blocks st s c b).max_files = st.max_files := rfl

@[simp] theorem write_metadata_bitmap (st : BmpFsState) :
    (write_metadata st).bitmap = st.bitmap := rfl

@[simp] theorem write_metadata_files (st : BmpFsState) :
    (write_metadata st).files = st.files := rfl

@[simp] theorem write_metadata_data (st : BmpFsState) :
    (write_metadata st).data = st.data := rfl

@[simp] theorem write_metadata_diskMeta (st : BmpFsState) :
    (write_metadata st).diskMeta = serializeMeta st := rfl

@[simp] theorem serializeMeta_write_metadata (st : BmpFsState) :
    serializeMeta (write_metadata st) = serializeMeta st := rfl

/-! ### Zero-size write to an empty file -/

/-- Claim C9: a write of size 0 at offset 0 to an existing empty regular file
(size 0, num_blocks 0, first_block = UINT32_MAX) succeeds and returns 0,
allocates no blocks and leaves size, first_block and num_blocks unchanged,
leaves the payload area untouched, yet updates the modified timestamp and
persists metadata (the resulting diskMeta equals the serialization of the
resulting live state). -/
theorem claim_C9 (st : BmpFsState) (path buf : List Nat) (now idx : Nat)
    (hidx : path_to_metadata_index st.files path = Except.ok idx)
    (hbs : st.block_size = 512)
    (hdir : (st.files.getD idx default).is_dir = 0)
    (hsz : (st.files.getD idx default).size = 0)
    (hnb : (st.files.getD idx default).num_blocks = 0)
    (hfb : (st.files.getD idx default).first_block = UINT32_MAX) :
    ∃ st2, bmpfs_write st path buf 0 0 now = Except.ok (0, st2) ∧
      st2.bitmap = st.bitmap ∧
      st2.files = st.files.set idx
        { st.files.getD idx default with modified := now } ∧
      (∀ a, st2.data a = st.data a) ∧
      st2.diskMeta = serializeMeta st2 := by
  have hrnb : readNumBlocks 0 0 512 = 0 := by norm_num [readNumBlocks]
  simp only [bmpfs_write, hidx, hdir, hbs, hnb, hsz, U64]
  norm_num [hrnb]
  have hsz2 : (st.files[idx]?.getD default).size = 0 := by
    rw [← List.getD_eq_getElem?_getD]; exact hsz
  have hnb2 : (st.files[idx]?.getD default).num_blocks = 0 := by
    rw [← List.getD_eq_getElem?_getD]; exact hnb
  have hdir2 : (st.files[idx]?.getD default).is_dir = 0 := by
    rw [← List.getD_eq_getElem?_getD]; exact hdir
  constructor
  · rw [hsz2, hnb2, hdir2]
  · intro a
    rw [write_blocks_data, if_neg (by omega)]

set_option maxRecDepth 8000 in
/-- Witness for claim C9: the zero-size write applied to a concrete empty
file. -/
theorem claim_C9_witness :
    ∃ st2, bmpfs_write w7st [47, 97] [] 0 0 9 = Except.ok (0, st2) ∧
      st2.bitmap = w7st.bitmap ∧
      st2.files = w7st.files.set 0
        { w7st.files.getD 0 default with modified := 9 } ∧
      (∀ a, st2.data a = w7st.data a) ∧
      st2.diskMeta = serializeMeta st2 :=
  claim_C9 w7st [47, 97] [] 9 0 (by rfl) (by decide) (by decide) (by decide)
    (by decide) (by decide)

end Bmpfs

namespace Bmpfs

/-! ### Frame property of a non-growing write -/

/-- Claim C8: a write whose required block count ceil((offset+size)/512) does
not exceed the file's current num_blocks succeeds returning size, leaves the
entire bitmap unchanged, changes the inode table only at the file's own slot
and there only size (raised to offset+size when that exceeds the old size)
and the modified timestamp (first_block and num_blocks are unchanged), and
changes payload bytes only inside the file's own block run; metadata is
persisted. -/
theorem claim_C8 (st : BmpFsState) (path buf : List Nat)
    (size offset now idx : Nat)
    (hidx : path_to_metadata_index st.files path = Except.ok idx)
    (hbs : st.block_size = 512)
    (hdir : (st.files.getD idx default).is_dir = 0)
    (hov : offset + size < U64)
    (hneed : (offset + size + 511) / 512 ≤ (st.files.getD idx default).num_blocks) :
    ∃ st2, bmpfs_write st path buf size offset now = Except.ok (size, st2) ∧
      st2.bitmap = st.bitmap ∧
      st2.files = st.files.set idx
        { st.files.getD idx default with
          size := if (st.files.getD idx default).size < offset + size
            then offset + size else (st.files.getD idx default).size
          modified := now } ∧
      (∀ a, (a < (st.files.getD idx default).first_block * 512 ∨
          ((st.files.getD idx default).first_block
            + (st.files.getD idx default).num_blocks) * 512 ≤ a) →
        st2.data a = st.data a) ∧
      st2.diskMeta = serializeMeta st2 := by
  have hmod : (offset + size) % U64 = offset + size := Nat.mod_eq_of_lt hov
  have hnotlt : ¬ (offset + size < offset) := by omega
  have hgetd : st.files.getD idx default = st.files[idx]?.getD default := by
    rw [List.getD_eq_getElem?_getD]
  have hdir2 : (st.files[idx]?.getD default).is_dir = 0 := by
    rw [← hgetd]; exact hdir
  have hng3 : ¬ ((st.files[idx]?.getD default).num_blocks
      < (offset + size + 511) / 512) := by
    rw [← hgetd]; omega
  have hneed2 : (offset + size + 511) / 512
      ≤ (st.files[idx]?.getD default).num_blocks := by
    rw [← hgetd]; exact hneed
  simp only [bmpfs_write, hidx, hbs, hmod]
  simp [hdir2, hnotlt, hng3]
  intro a ha
  rw [write_blocks_data, hbs]
  rw [if_neg (by unfold readStartBlock readNumBlocks; omega)]

set_option maxRecDepth 8000 in
/-- Witness for claim C8: a one-byte overwrite at offset 0 of the concrete
100-byte one-block file. -/
theorem claim_C8_witness :
    ∃ st2, bmpfs_write w6st [47, 99] [65] 1 0 9 = Except.ok (1, st2) ∧
      st2.bitmap = w6st.bitmap ∧
      st2.files = w6st.files.set 0
        { w6st.files.getD 0 default with
          size := if (w6st.files.getD 0 default).size < 0 + 1
            then 0 + 1 else (w6st.files.getD 0 default).size
          modified := 9 } ∧
      (∀ a, (a < (w6st.files.getD 0 default).first_block * 512 ∨
          ((w6st.files.getD 0 default).first_block
            + (w6st.files.getD 0 default).num_blocks) * 512 ≤ a) →
        st2.data a = w6st.data a) ∧
      st2.diskMeta = serializeMeta st2 :=
  claim_C8 w6st [47, 99] [65] 1 0 9 0 (by rfl) (by decide) (by decide)
    (by decide) (by decide)

end Bmpfs

namespace Bmpfs

/-! ### Indexing lemmas for the bitmap, block and buffer helpers -/

theorem setRun_length (bm : List Nat) (s v : Nat) :
    ∀ n, (setRun bm s n v).length = bm.length := by
  intro n
  induction n with
  | zero => rfl
  | succ n ih =>
    show ((setRun bm s n v).set (s + n) v).length = bm.length
    rw [List.length_set, ih]

theorem getElem?_setRun (bm : List Nat) (s v : Nat) :
    ∀ n k, (setRun bm s n v)[k]? =
      if s ≤ k ∧ k < s + n ∧ k < bm.length then some v else bm[k]? := by
  intro n
  induction n with
  | zero =>
    intro k
    show bm[k]? = if s ≤ k ∧ k < s + 0 ∧ k < bm.length then some v else bm[k]?
    rw [if_neg (by omega)]
  | succ n ih =>
    intro k
    show ((setRun bm s n v).set (s + n) v)[k]? = _
    rw [List.getElem?_set, setRun_length, ih k]
    by_cases hk : s + n = k
    · subst hk
      rw [if_pos rfl]
      by_cases hlen : s + n < bm.length
      · rw [if_pos hlen]
        rw [if_pos (show s ≤ s + n ∧ s + n < s + (n + 1) ∧ s + n < bm.length by
          omega)]
      · rw [if_neg hlen]
        rw [if_neg (show ¬ (s ≤ s + n ∧ s + n < s + (n + 1) ∧ s + n < bm.length)
          by omega)]
        exact (List.getElem?_eq_none (show bm.length ≤ s + n by omega)).symm
    · rw [if_neg hk]
      have hiff : (s ≤ k ∧ k < s + n ∧ k < bm.length)
          ↔ (s ≤ k ∧ k < s + (n + 1) ∧ k < bm.length) := by omega
      simp only [hiff]

theorem scanIdx_lt (p : FileMetadata → Bool) :
    ∀ (l : List FileMetadata) (i : Nat), scanIdx p l = some i → i < l.length := by
  intro l
  induction l with
  | nil => intro i h; simp [scanIdx] at h
  | cons f rest ih =>
    intro i h
    by_cases hp : p f
    · simp [scanIdx, hp] at h
      simp [← h]
    · simp [scanIdx, hp] at h
      obtain ⟨j, hj, hji⟩ := h
      have := ih j hj
      simp [← hji]
      omega

theorem path_to_metadata_index_lt (files : List FileMetadata) (path : List Nat)
    (idx : Nat) (h : path_to_metadata_index files path = Except.ok idx) :
    idx < files.length := by
  unfold path_to_metadata_index at h
  cases hv : validate_path path with
  | error e => rw [hv] at h; exact absurd h (by simp)
  | ok u =>
    rw [hv] at h
    cases hscan : scanIdx
        (fun f => f.filename.headD 0 != 0 && strName f.filename == stripSlash path)
        files with
    | none => rw [hscan] at h; exact absurd h (by simp)
    | some i =>
      rw [hscan] at h
      injection h with h
      subst h
      exact scanIdx_lt _ files i hscan

theorem getD_set_self (l : List FileMetadata) (i : Nat) (a : FileMetadata)
    (h : i < l.length) : (l.set i a).getD i default = a := by
  rw [List.getD_eq_getElem?_getD, List.getElem?_set]
  simp [h]

theorem read_blocks_length (st : BmpFsState) (start count : Nat) :
    (read_blocks st start count).length = count * st.block_size := by
  simp [read_blocks]

theorem read_blocks_getD (st : BmpFsState) (start count j : Nat)
    (h : j < count * st.block_size) :
    (read_blocks st start count).getD j 0
      = st.data (start * st.block_size + j) := by
  unfold read_blocks
  rw [List.getD_eq_getElem?_getD, List.getElem?_map, List.getElem?_range h]
  rfl

theorem memcpyAt_getD_lt (dst src : List Nat) (off q d : Nat)
    (hq : q < off) (hoff : off ≤ dst.length) :
    (memcpyAt dst off src).getD q d = dst.getD q d := by
  unfold memcpyAt
  rw [List.getD_eq_getElem?_getD, List.getD_eq_getElem?_getD]
  have hlt : (dst.take off).length = off := by
    rw [List.length_take]; omega
  rw [List.getElem?_append]
  rw [if_pos (show q < (dst.take off ++ src).length by
    rw [List.length_append, hlt]; omega)]
  rw [List.getElem?_append]
  rw [if_pos (show q < (dst.take off).length by rw [hlt]; omega)]
  rw [List.getElem?_take, if_pos hq]

theorem memcpyAt_getD_ge (dst src : List Nat) (off q d : Nat)
    (hq : off + src.length ≤ q) (hlen : off + src.length ≤ dst.length) :
    (memcpyAt dst off src).getD q d = dst.getD q d := by
  unfold memcpyAt
  rw [List.getD_eq_getElem?_getD, List.getD_eq_getElem?_getD]
  have hlt : (dst.take off).length = off := by
    rw [List.length_take]; omega
  have hlen2 : (dst.take off ++ src).length = off + src.length := by
    rw [List.length_append, hlt]
  rw [List.getElem?_append, if_neg (by rw [hlen2]; omega), hlen2,
    List.getElem?_drop]
  have harith : off + src.length + (q - (off + src.length)) = q := by omega
  rw [harith]

end Bmpfs

namespace Bmpfs

/-! ### Grow-and-relocate write -/

/-- Claim C1: a write on a regular file whose required block count
need = ceil((offset+size)/512) exceeds the current num_blocks, and for which
the free-run search succeeds (find_free_blocks does not return the sentinel),
succeeds and leaves the inode with first_block equal to the start s returned
by the search and num_blocks = need; the bitmap bytes of the new run
[s, s+need) are all 1 and the bytes of the old run that are not in the new
run are all 0; and every byte of the file's previous contents outside the
written range [offset, offset+size) is preserved at its original file offset
(the old blocks are copied to the new run before the old run is freed). -/
theorem claim_C1 (st : BmpFsState) (path buf : List Nat)
    (size offset now idx : Nat) (meta : FileMetadata) (need s : Nat)
    (hmeta : st.files.getD idx default = meta)
    (hidx : path_to_metadata_index st.files path = Except.ok idx)
    (hbs : st.block_size = 512)
    (hdir : meta.is_dir = 0)
    (hbuf : buf.length = size)
    (hov : offset + size < U64)
    (hneedEq : need = (offset + size + 511) / 512)
    (hgrow : meta.num_blocks < need)
    (hsEq : find_free_blocks st.bitmap need = s)
    (hs : s ≠ UINT32_MAX)
    (hin : meta.first_block + meta.num_blocks ≤ st.bitmap.length
      ∨ meta.num_blocks = 0) :
    ∃ st2, bmpfs_write st path buf size offset now = Except.ok (size, st2) ∧
      (st2.files.getD idx default).first_block = s ∧
      (st2.files.getD idx default).num_blocks = need ∧
      (∀ j, j < need → st2.bitmap[s + j]? = some 1) ∧
      (∀ j, j < meta.num_blocks →
        (meta.first_block + j < s ∨ s + need ≤ meta.first_block + j) →
        st2.bitmap[meta.first_block + j]? = some 0) ∧
      (∀ p, p < meta.num_blocks * 512 → (p < offset ∨ offset + size ≤ p) →
        st2.data (s * 512 + p) = st.data (meta.first_block * 512 + p)) := by
  have hidxlt : idx < st.files.length := path_to_metadata_index_lt _ _ _ hidx
  have hmeta2 : st.files[idx]?.getD default = meta := by
    rw [← List.getD_eq_getElem?_getD]; exact hmeta
  have hrun := find_free_blocks_run st.bitmap need (by omega)
    (by rw [hsEq]; exact hs)
  rw [hsEq] at hrun
  obtain ⟨⟨hsbnd, hszero⟩, hmin⟩ := hrun
  have hmod : (offset + size) % U64 = offset + size := Nat.mod_eq_of_lt hov
  have hnotlt : ¬ (offset + size < offset) := by omega
  have hgrow2 : meta.num_blocks < (offset + size + 511) / 512 := by omega
  have hsfull : find_free_blocks st.bitmap ((offset + size + 511) / 512) = s := by
    rw [← hneedEq]; exact hsEq
  have hsent : ¬ (find_free_blocks st.bitmap ((offset + size + 511) / 512)
      = UINT32_MAX) := by rw [hsfull]; exact hs
  have hlen0 : (setRun st.bitmap meta.first_block meta.num_blocks 0).length
      = st.bitmap.length := setRun_length _ _ _ _
  by_cases hnb0 : 0 < meta.num_blocks
  · have hin2 : meta.first_block + meta.num_blocks ≤ st.bitmap.length := by
      rcases hin with h | h
      · exact h
      · omega
    simp only [bmpfs_write, hidx, hbs, hmod]
    simp [hmeta2, hdir, hnotlt, hgrow2, hsent, hsfull, hs, hnb0]
    refine ⟨?_, ?_, ?_, ?_, ?_⟩
    · rw [List.getElem?_set]
      simp [hidxlt]
    · rw [List.getElem?_set]
      simp [hidxlt, hneedEq]
    · intro j hj
      rw [getElem?_setRun, hlen0]
      rw [if_pos (show s ≤ s + j ∧ s + j < s + (offset + size + 511) / 512
        ∧ s + j < st.bitmap.length by omega)]
    · intro j hj hdisj
      rw [getElem?_setRun, hlen0]
      rw [if_neg (show ¬ (s ≤ meta.first_block + j
        ∧ meta.first_block + j < s + (offset + size + 511) / 512
        ∧ meta.first_block + j < st.bitmap.length) by omega)]
      rw [getElem?_setRun]
      rw [if_pos (show meta.first_block ≤ meta.first_block + j
        ∧ meta.first_block + j < meta.first_block + meta.num_blocks
        ∧ meta.first_block + j < st.bitmap.length by omega)]
    · intro p hp hout
      have hcopy : (write_blocks st s meta.num_blocks
          (read_blocks st meta.first_block meta.num_blocks)).data (s * 512 + p)
          = st.data (meta.first_block * 512 + p) := by
        rw [write_blocks_data, hbs]
        rw [if_pos (show s * 512 ≤ s * 512 + p
          ∧ s * 512 + p < s * 512 + meta.num_blocks * 512 by omega)]
        have h1 : s * 512 + p - s * 512 = p := by omega
        rw [h1]
        rw [read_blocks_getD st meta.first_block meta.num_blocks p
          (by rw [hbs]; omega), hbs]
      rw [write_blocks_data]
      simp only [readStartBlock, readNumBlocks]
      rw [hbs]
      generalize hD : (write_blocks st s meta.num_blocks
        (read_blocks st meta.first_block meta.num_blocks)).data = dcopy
        at hcopy ⊢
      generalize hST : (⟨st.data_size, 512, st.max_files,
        setRun (setRun st.bitmap meta.first_block meta.num_blocks 0)
          s ((offset + size + 511) / 512) 1,
        st.files, st.diskMeta, dcopy⟩ : BmpFsState) = stBig
      have hSTbs : stBig.block_size = 512 := by rw [← hST]
      have hSTdata : stBig.data = dcopy := by rw [← hST]
      by_cases hB : (s + offset / 512) * 512 ≤ s * 512 + p
          ∧ s * 512 + p < (s + offset / 512) * 512
            + (size + offset % 512 + 512 - 1) / 512 * 512
      · rw [if_pos hB]
        by_cases hal : 0 < offset % 512 ∨ ¬ size % 512 = 0
        · rw [if_pos hal]
          have htake : buf.take size = buf := by
            rw [← hbuf]; exact List.take_length buf
          rw [htake]
          have hq : s * 512 + p - (s + offset / 512) * 512
              = p - offset / 512 * 512 := by omega
          rw [hq]
          have hlentemp : (read_blocks stBig (s + offset / 512)
              ((size + offset % 512 + 512 - 1) / 512)).length
              = (size + offset % 512 + 512 - 1) / 512 * 512 := by
            rw [read_blocks_length, hSTbs]
          have hread : (read_blocks stBig (s + offset / 512)
              ((size + offset % 512 + 512 - 1) / 512)).getD
              (p - offset / 512 * 512) 0
              = st.data (meta.first_block * 512 + p) := by
            rw [read_blocks_getD stBig (s + offset / 512)
              ((size + offset % 512 + 512 - 1) / 512) (p - offset / 512 * 512)
              (by rw [hSTbs]; omega)]
            rw [hSTbs, hSTdata]
            have harr : (s + offset / 512) * 512 + (p - offset / 512 * 512)
                = s * 512 + p := by omega
            rw [harr]
            exact hcopy
          rcases hout with h1 | h2
          · rw [memcpyAt_getD_lt (read_blocks stBig (s + offset / 512)
              ((size + offset % 512 + 512 - 1) / 512)) buf (offset % 512)
              (p - offset / 512 * 512) 0 (by omega) (by rw [hlentemp]; omega)]
            exact hread
          · rw [memcpyAt_getD_ge (read_blocks stBig (s + offset / 512)
              ((size + offset % 512 + 512 - 1) / 512)) buf (offset % 512)
              (p - offset / 512 * 512) 0 (by rw [hbuf]; omega)
              (by rw [hlentemp, hbuf]; omega)]
            exact hread
        · exfalso
          omega
      · rw [if_neg hB]
        exact hcopy
  · have hnbz : meta.num_blocks = 0 := by omega
    have hpos : 0 < (offset + size + 511) / 512 := by omega
    simp only [bmpfs_write, hidx, hbs, hmod]
    simp [hmeta2, hdir, hnotlt, hgrow2, hsent, hsfull, hs, hnbz, hpos]
    refine ⟨?_, ?_, ?_⟩
    · rw [List.getElem?_set]
      simp [hidxlt]
    · rw [List.getElem?_set]
      simp [hidxlt, hneedEq]
    · intro j hj
      rw [getElem?_setRun]
      rw [if_pos (show s ≤ s + j ∧ s + j < s + (offset + size + 511) / 512
        ∧ s + j < st.bitmap.length by omega)]


set_option maxRecDepth 8000 in
/-- Witness for claim C1: growing a concrete empty file by a one-byte write;
the search returns block 0 and the new one-block run is marked used. -/
theorem claim_C1_witness :
    ∃ st2, bmpfs_write w7st [47, 97] [65] 1 0 9 = Except.ok (1, st2) ∧
      (st2.files.getD 0 default).first_block = 0 ∧
      (st2.files.getD 0 default).num_blocks = 1 ∧
      (∀ j, j < 1 → st2.bitmap[0 + j]? = some 1) ∧
      (∀ j, j < w7file.num_blocks →
        (w7file.first_block + j < 0 ∨ 0 + 1 ≤ w7file.first_block + j) →
        st2.bitmap[w7file.first_block + j]? = some 0) ∧
      (∀ p, p < w7file.num_blocks * 512 → (p < 0 ∨ 0 + 1 ≤ p) →
        st2.data (0 * 512 + p) = w7st.data (w7file.first_block * 512 + p)) :=
  claim_C1 w7st [47, 97] [65] 1 0 9 0 w7file 1 0 (by rfl) (by rfl) (by decide)
    (by decide) (by decide) (by decide) (by decide) (by decide) (by rfl)
    (by decide) (Or.inr (by decide))

end Bmpfs

namespace Bmpfs

/-! ### The block-run invariant and its preservation -/

/-- A non-empty inode's run is in bounds and entirely marked used. -/
def InodeOk (bm : List Nat) (m : FileMetadata) : Prop :=
  m.first_block + m.num_blocks ≤ bm.length ∧
  ∀ j, j < m.num_blocks → bm[m.first_block + j]? = some 1

instance (bm : List Nat) (m : FileMetadata) : Decidable (InodeOk bm m) := by
  unfold InodeOk; infer_instance

/-- Two block runs occupy disjoint intervals. -/
def runsDisjoint (a b : FileMetadata) : Prop :=
  a.first_block + a.num_blocks ≤ b.first_block ∨
  b.first_block + b.num_blocks ≤ a.first_block

instance (a b : FileMetadata) : Decidable (runsDisjoint a b) := by
  unfold runsDisjoint; infer_instance

/-- The invariant over a bare bitmap and inode table: the bitmap covers tb
bytes; every inode holding blocks has its run in bounds and all 1 in the
bitmap; no two block-holding inodes' runs overlap. -/
def InvCore (tb : Nat) (bm : List Nat) (files : List FileMetadata) : Prop :=
  bm.length = tb ∧
  (∀ i, i < files.length → (files.getD i default).num_blocks ≠ 0 →
    InodeOk bm (files.getD i default)) ∧
  (∀ i, i < files.length → ∀ j, j < files.length → i ≠ j →
    (files.getD i default).num_blocks ≠ 0 →
    (files.getD j default).num_blocks ≠ 0 →
    runsDisjoint (files.getD i default) (files.getD j default))

instance (tb : Nat) (bm : List Nat) (files : List FileMetadata) :
    Decidable (InvCore tb bm files) := by
  unfold InvCore
  haveI hinner : Decidable (∀ i, i < files.length → ∀ j, j < files.length →
      i ≠ j → (files.getD i default).num_blocks ≠ 0 →
      (files.getD j default).num_blocks ≠ 0 →
      runsDisjoint (files.getD i default) (files.getD j default)) :=
    @Nat.decidableBallLT files.length _
      (fun i hi => @Nat.decidableBallLT files.length _
        (fun j hj => inferInstance))
  infer_instance

/-- The data-model invariant of claim C2, on a volume state. -/
def Inv (st : BmpFsState) : Prop :=
  InvCore (totalBlocks st) st.bitmap st.files

instance (st : BmpFsState) : Decidable (Inv st) := by
  unfold Inv; infer_instance

theorem getD_set_of_ne (l : List FileMetadata) (i k : Nat) (a : FileMetadata)
    (h : i ≠ k) : (l.set i a).getD k default = l.getD k default := by
  rw [List.getD_eq_getElem?_getD, List.getD_eq_getElem?_getD,
    List.getElem?_set, if_neg h]

theorem freeRun_disjoint_inode (bm : List Nat) (s n : Nat) (m : FileMetadata)
    (hfree : isFreeRun bm s n) (hok : InodeOk bm m) (hn : n ≠ 0)
    (hm : m.num_blocks ≠ 0) :
    s + n ≤ m.first_block ∨ m.first_block + m.num_blocks ≤ s := by
  by_contra hc
  have h0 := hfree.2 (max s m.first_block - s) (by omega)
  have h1 := hok.2 (max s m.first_block - m.first_block) (by omega)
  have heq : s + (max s m.first_block - s)
      = m.first_block + (max s m.first_block - m.first_block) := by omega
  rw [heq, h1] at h0
  simp at h0

/-- Clearing one slot's run in the bitmap and storing a blockless record in
that slot preserves the invariant (unlink, rmdir, truncate-to-zero). -/
theorem invCore_clear (tb : Nat) (bm : List Nat) (files : List FileMetadata)
    (h : InvCore tb bm files) (idx : Nat) (hidx : idx < files.length)
    (m2 : FileMetadata) (hm2 : m2.num_blocks = 0) :
    InvCore tb
      (setRun bm (files.getD idx default).first_block
        (files.getD idx default).num_blocks 0)
      (files.set idx m2) := by
  obtain ⟨hlen, hok, hdisj⟩ := h
  refine ⟨by rw [setRun_length]; exact hlen, ?_, ?_⟩
  · intro i hi hnz
    rw [List.length_set] at hi
    by_cases hieq : idx = i
    · subst hieq
      rw [getD_set_self _ _ _ hidx] at hnz
      exact absurd hm2 hnz
    · rw [getD_set_of_ne _ _ _ _ hieq] at hnz ⊢
      have hoki := hok i hi hnz
      constructor
      · rw [setRun_length]; exact hoki.1
      · intro j hj
        rw [getElem?_setRun]
        rw [if_neg ?hno]
        · exact hoki.2 j hj
        case hno =>
          intro hcon
          obtain ⟨hc1, hc2, hc3⟩ := hcon
          have hnzidx : (files.getD idx default).num_blocks ≠ 0 := by omega
          have hd := hdisj idx hidx i hi hieq hnzidx hnz
          unfold runsDisjoint at hd
          have hbound := hoki.1
          omega
  · intro i hi j hj hij hni hnj
    rw [List.length_set] at hi hj
    by_cases hieq : idx = i
    · subst hieq
      rw [getD_set_self _ _ _ hidx] at hni
      exact absurd hm2 hni
    · by_cases hjeq : idx = j
      · subst hjeq
        rw [getD_set_self _ _ _ hidx] at hnj
        exact absurd hm2 hnj
      · rw [getD_set_of_ne _ _ _ _ hieq] at hni ⊢
        rw [getD_set_of_ne _ _ _ _ hjeq] at hnj ⊢
        exact hdisj i hi j hj hij hni hnj

/-- Storing a blockless record in a slot, bitmap untouched, preserves the
invariant (create, mkdir). -/
theorem invCore_set_empty (tb : Nat) (bm : List Nat)
    (files : List FileMetadata) (h : InvCore tb bm files) (idx : Nat)
    (hidx : idx < files.length) (m2 : FileMetadata)
    (hm2 : m2.num_blocks = 0) :
    InvCore tb bm (files.set idx m2) := by
  obtain ⟨hlen, hok, hdisj⟩ := h
  refine ⟨hlen, ?_, ?_⟩
  · intro i hi hnz
    rw [List.length_set] at hi
    by_cases hieq : idx = i
    · subst hieq
      rw [getD_set_self _ _ _ hidx] at hnz
      exact absurd hm2 hnz
    · rw [getD_set_of_ne _ _ _ _ hieq] at hnz ⊢
      exact hok i hi hnz
  · intro i hi j hj hij hni hnj
    rw [List.length_set] at hi hj
    by_cases hieq : idx = i
    · subst hieq
      rw [getD_set_self _ _ _ hidx] at hni
      exact absurd hm2 hni
    · by_cases hjeq : idx = j
      · subst hjeq
        rw [getD_set_self _ _ _ hidx] at hnj
        exact absurd hm2 hnj
      · rw [getD_set_of_ne _ _ _ _ hieq] at hni ⊢
        rw [getD_set_of_ne _ _ _ _ hjeq] at hnj ⊢
        exact hdisj i hi j hj hij hni hnj

/-- Replacing a slot's record by one with the same run, bitmap untouched,
preserves the invariant (non-growing write). -/
theorem invCore_set_same_run (tb : Nat) (bm : List Nat)
    (files : List FileMetadata) (h : InvCore tb bm files) (idx : Nat)
    (hidx : idx < files.length) (m2 : FileMetadata)
    (hfb : m2.first_block = (files.getD idx default).first_block)
    (hnb : m2.num_blocks = (files.getD idx default).num_blocks) :
    InvCore tb bm (files.set idx m2) := by
  obtain ⟨hlen, hok, hdisj⟩ := h
  refine ⟨hlen, ?_, ?_⟩
  · intro i hi hnz
    rw [List.length_set] at hi
    by_cases hieq : idx = i
    · subst hieq
      rw [getD_set_self _ _ _ hidx] at hnz ⊢
      have hoki := hok idx hidx (by omega)
      unfold InodeOk at hoki ⊢
      rw [hfb, hnb]
      exact hoki
    · rw [getD_set_of_ne _ _ _ _ hieq] at hnz ⊢
      exact hok i hi hnz
  · intro i hi j hj hij hni hnj
    rw [List.length_set] at hi hj
    by_cases hieq : idx = i
    · subst hieq
      have hjne : idx ≠ j := hij
      rw [getD_set_self _ _ _ hidx] at hni ⊢
      rw [getD_set_of_ne _ _ _ _ hjne] at hnj ⊢
      have hd := hdisj idx hidx j hj hij (by omega) hnj
      unfold runsDisjoint at hd ⊢
      rw [hfb, hnb]
      exact hd
    · by_cases hjeq : idx = j
      · subst hjeq
        rw [getD_set_self _ _ _ hidx] at hnj ⊢
        rw [getD_set_of_ne _ _ _ _ hieq] at hni ⊢
        have hd := hdisj i hi idx hidx (fun hh => hieq hh.symm) hni (by omega)
        unfold runsDisjoint at hd ⊢
        rw [hfb, hnb]
        exact hd
      · rw [getD_set_of_ne _ _ _ _ hieq] at hni ⊢
        rw [getD_set_of_ne _ _ _ _ hjeq] at hnj ⊢
        exact hdisj i hi j hj hij hni hnj

/-- Shrinking a slot's run in place, clearing the tail of the old run,
preserves the invariant (truncate to a smaller nonzero block count). -/
theorem invCore_shrink (tb : Nat) (bm : List Nat)
    (files : List FileMetadata) (h : InvCore tb bm files) (idx : Nat)
    (hidx : idx < files.length) (m2 : FileMetadata) (need : Nat)
    (hneed : need < (files.getD idx default).num_blocks)
    (hfb : m2.first_block = (files.getD idx default).first_block)
    (hnb : m2.num_blocks = need) :
    InvCore tb
      (setRun bm ((files.getD idx default).first_block + need)
        ((files.getD idx default).num_blocks - need) 0)
      (files.set idx m2) := by
  obtain ⟨hlen, hok, hdisj⟩ := h
  have hokidx := hok idx hidx (by omega)
  refine ⟨by rw [setRun_length]; exact hlen, ?_, ?_⟩
  · intro i hi hnz
    rw [List.length_set] at hi
    by_cases hieq : idx = i
    · subst hieq
      rw [getD_set_self _ _ _ hidx] at hnz ⊢
      constructor
      · rw [setRun_length, hfb, hnb]
        have := hokidx.1
        omega
      · intro j hj
        rw [getElem?_setRun]
        rw [if_neg (by rw [hnb] at hj; rw [hfb]; omega :
          ¬ ((files.getD idx default).first_block + need
              ≤ m2.first_block + j
            ∧ m2.first_block + j < (files.getD idx default).first_block + need
              + ((files.getD idx default).num_blocks - need)
            ∧ m2.first_block + j < bm.length))]
        rw [hfb]
        exact hokidx.2 j (by omega)
    · rw [getD_set_of_ne _ _ _ _ hieq] at hnz ⊢
      have hoki := hok i hi hnz
      constructor
      · rw [setRun_length]; exact hoki.1
      · intro j hj
        rw [getElem?_setRun]
        rw [if_neg ?hno2]
        · exact hoki.2 j hj
        case hno2 =>
          intro hcon
          obtain ⟨hc1, hc2, hc3⟩ := hcon
          have hnzidx : (files.getD idx default).num_blocks ≠ 0 := by omega
          have hd := hdisj idx hidx i hi hieq hnzidx hnz
          unfold runsDisjoint at hd
          have hbound := hoki.1
          omega
  · intro i hi j hj hij hni hnj
    rw [List.length_set] at hi hj
    by_cases hieq : idx = i
    · subst hieq
      have hjne : idx ≠ j := hij
      rw [getD_set_self _ _ _ hidx] at hni ⊢
      rw [getD_set_of_ne _ _ _ _ hjne] at hnj ⊢
      have hd := hdisj idx hidx j hj hij (by omega) hnj
      unfold runsDisjoint at hd ⊢
      rw [hfb, hnb]
      omega
    · by_cases hjeq : idx = j
      · subst hjeq
        rw [getD_set_self _ _ _ hidx] at hnj ⊢
        rw [getD_set_of_ne _ _ _ _ hieq] at hni ⊢
        have hd := hdisj i hi idx hidx (fun hh => hieq hh.symm) hni (by omega)
        unfold runsDisjoint at hd ⊢
        rw [hfb, hnb]
        omega
      · rw [getD_set_of_ne _ _ _ _ hieq] at hni ⊢
        rw [getD_set_of_ne _ _ _ _ hjeq] at hnj ⊢
        exact hdisj i hi j hj hij hni hnj

/-- Relocating a slot's run to a freshly found free run, clearing the old
run and marking the new one, preserves the invariant (growing write and
growing truncate). -/
theorem invCore_grow (tb : Nat) (bm : List Nat) (files : List FileMetadata)
    (h : InvCore tb bm files) (idx : Nat) (hidx : idx < files.length)
    (m2 : FileMetadata) (s need : Nat) (hneedpos : need ≠ 0)
    (hfree : isFreeRun bm s need)
    (hfb : m2.first_block = s) (hnb : m2.num_blocks = need) :
    InvCore tb
      (setRun (setRun bm (files.getD idx default).first_block
        (files.getD idx default).num_blocks 0) s need 1)
      (files.set idx m2) := by
  obtain ⟨hlen, hok, hdisj⟩ := h
  have hsbnd := hfree.1
  have hlen0 : (setRun bm (files.getD idx default).first_block
      (files.getD idx default).num_blocks 0).length = bm.length :=
    setRun_length _ _ _ _
  refine ⟨by rw [setRun_length, hlen0]; exact hlen, ?_, ?_⟩
  · intro i hi hnz
    rw [List.length_set] at hi
    by_cases hieq : idx = i
    · subst hieq
      rw [getD_set_self _ _ _ hidx] at hnz ⊢
      constructor
      · rw [setRun_length, hlen0, hfb, hnb]
        omega
      · intro j hj
        rw [getElem?_setRun, hlen0]
        rw [if_pos (by rw [hnb] at hj; rw [hfb]; omega :
          s ≤ m2.first_block + j ∧ m2.first_block + j < s + need
            ∧ m2.first_block + j < bm.length)]
    · rw [getD_set_of_ne _ _ _ _ hieq] at hnz ⊢
      have hoki := hok i hi hnz
      have hdisjnew : s + need ≤ (files.getD i default).first_block
          ∨ (files.getD i default).first_block
            + (files.getD i default).num_blocks ≤ s :=
        freeRun_disjoint_inode bm s need _ hfree hoki hneedpos hnz
      constructor
      · rw [setRun_length, hlen0]; exact hoki.1
      · intro j hj
        rw [getElem?_setRun, hlen0]
        rw [if_neg (by omega : ¬ (s ≤ (files.getD i default).first_block + j
          ∧ (files.getD i default).first_block + j < s + need
          ∧ (files.getD i default).first_block + j < bm.length))]
        rw [getElem?_setRun]
        rw [if_neg ?hno3]
        · exact hoki.2 j hj
        case hno3 =>
          intro hcon
          obtain ⟨hc1, hc2, hc3⟩ := hcon
          have hnzidx : (files.getD idx default).num_blocks ≠ 0 := by omega
          have hd := hdisj idx hidx i hi hieq hnzidx hnz
          unfold runsDisjoint at hd
          have hbound := hoki.1
          omega
  · intro i hi j hj hij hni hnj
    rw [List.length_set] at hi hj
    by_cases hieq : idx = i
    · subst hieq
      have hjne : idx ≠ j := hij
      rw [getD_set_self _ _ _ hidx] at hni ⊢
      rw [getD_set_of_ne _ _ _ _ hjne] at hnj ⊢
      have hdn := freeRun_disjoint_inode bm s need _ hfree
        (hok j hj hnj) hneedpos hnj
      unfold runsDisjoint
      rw [hfb, hnb]
      omega
    · by_cases hjeq : idx = j
      · subst hjeq
        rw [getD_set_self _ _ _ hidx] at hnj ⊢
        rw [getD_set_of_ne _ _ _ _ hieq] at hni ⊢
        have hdn := freeRun_disjoint_inode bm s need _ hfree
          (hok i hi hni) hneedpos hni
        unfold runsDisjoint
        rw [hfb, hnb]
        omega
      · rw [getD_set_of_ne _ _ _ _ hieq] at hni ⊢
        rw [getD_set_of_ne _ _ _ _ hjeq] at hnj ⊢
        exact hdisj i hi j hj hij hni hnj

end Bmpfs

namespace Bmpfs

/-- A mutating operation of the filesystem surface (the six operations of
claim C2) together with its arguments. -/
inductive MutOp where
  | create (path : List Nat) (mode now uid gid : Nat)
  | mkdir (path : List Nat) (mode now uid gid : Nat)
  | write (path buf : List Nat) (size offset now : Nat)
  | truncate (path : List Nat) (size now : Nat)
  | unlink (path : List Nat)
  | rmdir (path : List Nat)

/-- Apply a mutating operation to a volume state. -/
def applyOp (op : MutOp) (st : BmpFsState) : Except Errno BmpFsState :=
  match op with
  | MutOp.create p m n u g => bmpfs_create st p m n u g
  | MutOp.mkdir p m n u g => bmpfs_mkdir st p m n u g
  | MutOp.write p b s o n =>
    match bmpfs_write st p b s o n with
    | Except.error e => Except.error e
    | Except.ok r => Except.ok r.2
  | MutOp.truncate p s n => bmpfs_truncate st p s n
  | MutOp.unlink p => bmpfs_unlink st p
  | MutOp.rmdir p => bmpfs_rmdir st p

theorem inv_create (st st2 : BmpFsState) (path : List Nat)
    (mode now uid gid : Nat) (hinv : Inv st)
    (h : bmpfs_create st path mode now uid gid = Except.ok st2) : Inv st2 := by
  simp only [bmpfs_create] at h
  split at h
  · exact absurd h (by simp)
  · split at h
    · exact absurd h (by simp)
    · split at h
      · exact absurd h (by simp)
      · next idx heq =>
        injection h with h
        subst h
        exact invCore_set_empty (totalBlocks st) st.bitmap st.files hinv idx
          (scanIdx_lt _ _ _ heq) _ rfl

theorem inv_mkdir (st st2 : BmpFsState) (path : List Nat)
    (mode now uid gid : Nat) (hinv : Inv st)
    (h : bmpfs_mkdir st path mode now uid gid = Except.ok st2) : Inv st2 := by
  simp only [bmpfs_mkdir] at h
  split at h
  · exact absurd h (by simp)
  · split at h
    · exact absurd h (by simp)
    · split at h
      · exact absurd h (by simp)
      · next idx heq =>
        injection h with h
        subst h
        exact invCore_set_empty (totalBlocks st) st.bitmap st.files hinv idx
          (scanIdx_lt _ _ _ heq) _ rfl

theorem inv_unlink (st st2 : BmpFsState) (path : List Nat) (hinv : Inv st)
    (h : bmpfs_unlink st path = Except.ok st2) : Inv st2 := by
  simp only [bmpfs_unlink] at h
  split at h
  · exact absurd h (by simp)
  · next idx heq =>
    split at h
    · exact absurd h (by simp)
    · injection h with h
      subst h
      exact invCore_clear (totalBlocks st) st.bitmap st.files hinv idx
        (path_to_metadata_index_lt _ _ _ heq) zeroInode rfl

theorem inv_rmdir (st st2 : BmpFsState) (path : List Nat) (hinv : Inv st)
    (h : bmpfs_rmdir st path = Except.ok st2) : Inv st2 := by
  simp only [bmpfs_rmdir] at h
  split at h
  · exact absurd h (by simp)
  · next idx heq =>
    split at h
    · exact absurd h (by simp)
    · injection h with h
      subst h
      exact invCore_clear (totalBlocks st) st.bitmap st.files hinv idx
        (path_to_metadata_index_lt _ _ _ heq) zeroInode rfl

end Bmpfs

namespace Bmpfs

theorem inv_truncate (st st2 : BmpFsState) (path : List Nat) (size now : Nat)
    (hinv : Inv st) (h : bmpfs_truncate st path size now = Except.ok st2) :
    Inv st2 := by
  simp only [bmpfs_truncate] at h
  split at h
  · exact absurd h (by simp)
  · next idx heq =>
    have hlt := path_to_metadata_index_lt _ _ _ heq
    split at h
    · exact absurd h (by simp)
    · split at h
      · -- size = 0: free the run, blockless record
        injection h with h
        subst h
        exact invCore_clear (totalBlocks st) st.bitmap st.files hinv idx hlt _
          rfl
      · split at h
        · -- shrink
          next hshr =>
          injection h with h
          subst h
          exact invCore_shrink (totalBlocks st) st.bitmap st.files hinv idx hlt
            _ _ hshr rfl rfl
        · split at h
          · -- grow
            next hgr =>
            split at h
            · exact absurd h (by simp)
            · next hsent =>
              have hfree := (find_free_blocks_run st.bitmap
                ((size + st.block_size - 1) / st.block_size) (by omega)
                hsent).1
              split at h
              · -- existing blocks copied
                injection h with h
                subst h
                exact invCore_grow (totalBlocks st) st.bitmap st.files hinv idx
                  hlt _ _ _ (by omega) hfree rfl rfl
              · -- no existing blocks
                next hnb0 =>
                injection h with h
                subst h
                have hnbz : (st.files.getD idx default).num_blocks = 0 := by
                  omega
                have hres := invCore_grow (totalBlocks st) st.bitmap st.files
                  hinv idx hlt
                  { st.files.getD idx default with
                    first_block := find_free_blocks st.bitmap
                      ((size + st.block_size - 1) / st.block_size),
                    num_blocks := (size + st.block_size - 1) / st.block_size,
                    size := size, modified := now }
                  (find_free_blocks st.bitmap
                    ((size + st.block_size - 1) / st.block_size))
                  ((size + st.block_size - 1) / st.block_size)
                  (by omega) hfree rfl rfl
                rw [hnbz] at hres
                simp only [setRun] at hres
                exact hres
          · -- equal block count: state unchanged apart from persistence
            injection h with h
            subst h
            exact hinv

theorem inv_write (st st2 : BmpFsState) (path buf : List Nat)
    (size offset now k : Nat) (hinv : Inv st)
    (h : bmpfs_write st path buf size offset now = Except.ok (k, st2)) :
    Inv st2 := by
  simp only [bmpfs_write] at h
  split at h
  · exact absurd h (by simp)
  · next idx heq =>
    have hlt := path_to_metadata_index_lt _ _ _ heq
    split at h
    · exact absurd h (by simp)
    · split at h
      · exact absurd h (by simp)
      · split at h
        · -- the relocation step failed: no success to consider
          exact absurd h (by simp)
        · next st2x meta2 heq2 =>
          injection h with h
          injection h with hk hst
          subst hst
          split at heq2
          · -- grow branch
            next hgr =>
            split at heq2
            · exact absurd heq2 (by simp)
            · next hsent =>
              have hfree := (find_free_blocks_run st.bitmap
                (((offset + size) % U64 + st.block_size - 1) / st.block_size)
                (by omega) hsent).1
              injection heq2 with heq2
              injection heq2 with ha hb
              subst ha
              subst hb
              by_cases hnb0 : 0 < (st.files.getD idx default).num_blocks
              · simp only [if_pos hnb0]
                exact invCore_grow (totalBlocks st) st.bitmap st.files hinv idx
                  hlt _ _ _ (by omega) hfree rfl rfl
              · simp only [if_neg hnb0]
                have hnbz : (st.files.getD idx default).num_blocks = 0 := by
                  omega
                have hres := invCore_grow (totalBlocks st) st.bitmap st.files
                  hinv idx hlt
                  { st.files.getD idx default with
                    first_block := find_free_blocks st.bitmap
                      (((offset + size) % U64 + st.block_size - 1)
                        / st.block_size),
                    num_blocks := ((offset + size) % U64 + st.block_size - 1)
                      / st.block_size,
                    size := if (st.files.getD idx default).size
                        < (offset + size) % U64
                      then (offset + size) % U64
                      else (st.files.getD idx default).size,
                    modified := now }
                  (find_free_blocks st.bitmap
                    (((offset + size) % U64 + st.block_size - 1)
                      / st.block_size))
                  (((offset + size) % U64 + st.block_size - 1) / st.block_size)
                  (by omega) hfree rfl rfl
                rw [hnbz] at hres
                simp only [setRun] at hres
                exact hres
          · -- no growth: same run stored back
            injection heq2 with heq2
            injection heq2 with ha hb
            subst ha
            subst hb
            exact invCore_set_same_run (totalBlocks st) st.bitmap st.files hinv
              idx hlt _ rfl rfl


/-- Claim C2: starting from any volume state satisfying the data-model
invariants (bitmap of total_blocks bytes; every inode holding blocks has
first_block + num_blocks <= total_blocks with its bitmap bytes all 1; no two
block-holding inodes' runs overlap), every successful mutating operation
(create, mkdir, write, truncate, unlink, rmdir) preserves the invariant. -/
theorem claim_C2 (op : MutOp) (st st2 : BmpFsState) (hinv : Inv st)
    (h : applyOp op st = Except.ok st2) : Inv st2 := by
  cases op with
  | create p m n u g => exact inv_create st st2 p m n u g hinv h
  | mkdir p m n u g => exact inv_mkdir st st2 p m n u g hinv h
  | write p b s o n =>
    simp only [applyOp] at h
    split at h
    · exact absurd h (by simp)
    · next r heqw =>
      injection h with h
      subst h
      exact inv_write st r.2 p b s o n r.1 hinv (by rw [heqw])
  | truncate p s n => exact inv_truncate st st2 p s n hinv h
  | unlink p => exact inv_unlink st st2 p hinv h
  | rmdir p => exact inv_rmdir st st2 p hinv h

/-- A two-slot volume satisfying the invariant: one one-block file and one
free slot. -/
def w2st : BmpFsState := { w6st with files := [w6file, zeroInode], max_files := 2 }

/-- The state produced by creating a second file on w2st. -/
def w2res : BmpFsState :=
  (applyOp (MutOp.create [47, 98] 420 7 0 0) w2st).toOption.getD default

set_option maxRecDepth 8000 in
/-- Witness for claim C2: the concrete volume satisfies the invariant, and so
does the result of a successful create on it. -/
theorem claim_C2_witness : Inv w2st ∧ Inv w2res :=
  ⟨by decide,
   claim_C2 (MutOp.create [47, 98] 420 7 0 0) w2st w2res (by decide) (by rfl)⟩

end Bmpfs
